import Mathlib

/-!
Verification of the Anya any-angle path-finding engine (`anya2d`).

This file shallowly embeds the parts of the source relevant to the frozen
claims:

* `grid.py` — the bitpacked grid, its point classification
  (`update_point`) and the word-parallel scans (`scan_cells_left`,
  `scan_cells_right`, `scan_left`, `scan_right`);
* `interval.py` — intervals with endpoint snapping and tolerant equality;
* `interval_projection.py` — flat and cone projections;
* `expansion_policy.py` — successor generation;
* `heuristic.py` — the Anya heuristic;
* `fibonacci_heap.py` / `fibonacci_heap_node.py` — the open list;
* `search.py` — `search_costonly` and `search`.

Modelling conventions:

* Python floats are modelled as exact rational numbers.  Because
  `Rat`'s normalising arithmetic does not reduce in the kernel, we use a
  raw fraction type `Q` (numerator, positive denominator, never
  normalised); every operation on `Q` is kernel-computable and agrees
  with the corresponding exact rational operation.  Quantities that the
  source obtains from `math`-style square roots (step costs, heuristic
  values, g-values, keys) are kept in an arbitrary `LinearOrderedField`
  `K` together with a square-root function `sq : K → K`; the theorems
  instantiate `K := ℝ`, `sq := Real.sqrt`.
* The grid bitmaps are 32-bit words (`BITS_PER_WORD = 32`,
  `INDEX_MASK = 31` in `constants.py`), stored as a map from word index
  to word; complement is taken inside a 32-bit word, exactly as the
  scan code's masks and the 32-character binary formatting of
  `get_number_leading_zeros` assume.
* Python's unbounded while-loops become fuel-indexed recursions
  returning `Option`/`Except`; `none` (resp. `.error .outOfFuel`) marks
  fuel exhaustion and never occurs in the proved executions.
* Python `int(x)` truncates toward zero; `x >> k` is a floor shift;
  `x & (2^k - 1)` is a euclidean remainder.  These appear below as
  `pyInt`, `Int.ediv`/`Int.emod` (the array indices involved are
  nonnegative in every execution considered) and `Int.tdiv`.
-/

namespace Anya2d

/-! ## Exact fractions standing in for Python floats -/

/-- A raw fraction: `num / den` with `den > 0` maintained by every
constructor below.  Fractions are never normalised, so all operations
are plain integer arithmetic and reduce in the kernel. -/
structure Q where
  num : Int
  den : Int
deriving DecidableEq, Repr

/-- Embed an integer. -/
def Q.ofInt (n : Int) : Q := ⟨n, 1⟩

instance : OfNat Q n := ⟨Q.ofInt n⟩

/-- Addition of fractions. -/
def Q.add (a b : Q) : Q := ⟨a.num * b.den + b.num * a.den, a.den * b.den⟩

/-- Subtraction of fractions. -/
def Q.sub (a b : Q) : Q := ⟨a.num * b.den - b.num * a.den, a.den * b.den⟩

/-- Multiplication of fractions. -/
def Q.mul (a b : Q) : Q := ⟨a.num * b.num, a.den * b.den⟩

/-- Negation. -/
def Q.neg (a : Q) : Q := ⟨-a.num, a.den⟩

/-- Division; the sign is moved to the numerator so that the denominator
stays positive.  Division by zero is unreachable in the embedded code
(the one risky division in `heuristic.py` is guarded by `rise ≠ 0`). -/
def Q.div (a b : Q) : Q :=
  if b.num < 0 then ⟨-(a.num * b.den), a.den * (-b.num)⟩
  else ⟨a.num * b.den, a.den * b.num⟩

/-- Absolute value. -/
def Q.abs (a : Q) : Q := ⟨|a.num|, a.den⟩

/-- Value comparison `a < b` (cross multiplication; dens are positive). -/
def Q.lt (a b : Q) : Bool := decide (a.num * b.den < b.num * a.den)

/-- Value comparison `a ≤ b`. -/
def Q.le (a b : Q) : Bool := decide (a.num * b.den ≤ b.num * a.den)

/-- Value equality `a == b`, as Python float equality. -/
def Q.veq (a b : Q) : Bool := decide (a.num * b.den = b.num * a.den)

/-- Python `min` (returns the first argument on ties). -/
def Q.vmin (a b : Q) : Q := if Q.le a b then a else b

/-- Python `max` (returns the first argument on ties). -/
def Q.vmax (a b : Q) : Q := if Q.le b a then a else b

/-- Python `int(x)`: truncation toward zero. -/
def pyInt (a : Q) : Int := Int.tdiv a.num a.den

/-- The value of a fraction in an ordered field. -/
def Q.toK (K : Type) [DivisionRing K] (a : Q) : K := (a.num : K) / (a.den : K)

/-- `EPSILON = DOUBLE_INEQUALITY_THRESHOLD = 1e-07` (`constants.py`). -/
def EPS : Q := ⟨1, 10000000⟩

/-! ## 32-bit word helpers (`constants.py`, tail of `grid.py`)

The bitmaps live in numpy unsigned arrays laid out in 32-bit words
(`BITS_PER_WORD = 32`, `zeros(..., dtype=uint)`); every stored word is
a nonnegative value below `2^32`, and the `~` applied to a word in the
scans denotes the complement within that 32-bit word. -/

/-- `PADDING_ = 2`. -/
def PAD : Int := 2

/-- All 32 bits set: `2^32 - 1`. -/
def W32M : Nat := 4294967295

/-- Complement inside a 32-bit word (the effect of `~` on a stored
32-bit word). -/
def compl32 (w : Nat) : Nat := W32M ^^^ w

/-- Fuel-indexed helper for the number of trailing zeros. -/
def ntzAux : Nat → Nat → Nat
  | 0, _ => 0
  | f + 1, v => if v % 2 = 1 then 0 else ntzAux f (v / 2) + 1

/-- `get_number_trailing_zeros` (grid.py:422-430): on the nonnegative
32-bit scan words the `bin`-string count of trailing `'0'` characters
is the trailing-zero count of the value, and 32 for zero. -/
def ntz32 (v : Nat) : Nat := if v = 0 then 32 else ntzAux 32 v

/-- Fuel-indexed floor logarithm in base two. -/
def log2Aux : Nat → Nat → Nat
  | 0, _ => 0
  | f + 1, v => if v ≤ 1 then 0 else log2Aux f (v / 2) + 1

/-- Floor logarithm in base two (defined for the value range below
`2^64` that the scan words inhabit). -/
def nlog2 (v : Nat) : Nat := log2Aux 64 v

/-- `get_number_leading_zeros` (grid.py:432-440): on the nonnegative
32-bit scan words the `f'{value:032b}'`-string count of leading `'0'`
characters is `32 - bitlength`, i.e. `31 - log2` for a nonzero value,
and 32 for zero. -/
def clz32 (v : Nat) : Nat := if v = 0 then 32 else 31 - nlog2 v

/-! ## The bitpacked grid (`grid.py`) -/

/-- State of `BitpackedGrid`: the original dimensions and the four
bitmaps, each a map from word index to 32-bit word (all words start at
zero, i.e. everything blocked / no flags set, as in `init`). -/
structure Grid where
  width : Int
  height : Int
  cells : Int → Nat
  visible : Int → Nat
  corner : Int → Nat
  dcorner : Int → Nat

/-- `init` (grid.py:58-73): the all-blocked grid of the given original
dimensions. -/
def initGrid (width height : Int) : Grid :=
  ⟨width, height, fun _ => 0, fun _ => 0, fun _ => 0, fun _ => 0⟩

/-- `map_width_in_words = (width >> 5) + 1`. -/
def Grid.mapWidthInWords (g : Grid) : Int := Int.ediv g.width 32 + 1

/-- `map_width = map_width_in_words << 5`. -/
def Grid.mapWidth (g : Grid) : Int := g.mapWidthInWords * 32

/-- `map_height = height + 2 * PADDING_`. -/
def Grid.mapHeight (g : Grid) : Int := g.height + 2 * PAD

/-- `map_size = (map_height * map_width) >> 5`, in words. -/
def Grid.mapSize (g : Grid) : Int := Int.ediv (g.mapHeight * g.mapWidth) 32

/-- `smallest_step = min(1/map_width, 1/map_height)`. -/
def Grid.smallestStep (g : Grid) : Q := Q.vmin ⟨1, g.mapWidth⟩ ⟨1, g.mapHeight⟩

/-- `smallest_step_div2`. -/
def Grid.smallestStepDiv2 (g : Grid) : Q := Q.div g.smallestStep (Q.ofInt 2)

/-- `get_map_id` (grid.py:204-206). -/
def Grid.mapId (g : Grid) (x y : Int) : Int := (y + PAD) * g.mapWidth + (x + PAD)

/-- `get_bit_value` (grid.py:192-202): bit `id & 31` of word `id >> 5`. -/
def getBitArr (arr : Int → Nat) (id : Int) : Bool :=
  (arr (Int.ediv id 32)).testBit (Int.emod id 32).toNat

/-- `set_bit_value` (grid.py:178-190). -/
def setBitArr (arr : Int → Nat) (id : Int) (value : Bool) : Int → Nat :=
  fun w =>
    if w = Int.ediv id 32 then
      if value then arr w ||| (1 <<< (Int.emod id 32).toNat)
      else arr w &&& compl32 (1 <<< (Int.emod id 32).toNat)
    else arr w

/-- `get_cell_is_traversable`. -/
def Grid.cellTrav (g : Grid) (cx cy : Int) : Bool := getBitArr g.cells (g.mapId cx cy)

/-- `get_point_is_visible`. -/
def Grid.pointVisible (g : Grid) (x y : Int) : Bool := getBitArr g.visible (g.mapId x y)

/-- `get_point_is_corner`. -/
def Grid.pointCorner (g : Grid) (x y : Int) : Bool := getBitArr g.corner (g.mapId x y)

/-- `get_point_is_double_corner`. -/
def Grid.pointDoubleCorner (g : Grid) (x y : Int) : Bool := getBitArr g.dcorner (g.mapId x y)

/-- `get_point_is_discrete` (grid.py:135-137). -/
def Grid.pointIsDiscrete (g : Grid) (x : Q) : Bool :=
  Q.lt (Q.abs (Q.sub (Q.ofInt (pyInt (Q.add x g.smallestStepDiv2))) x)) g.smallestStep

/-- `update_point` (grid.py:151-176): recompute the visible / corner /
double-corner flags of one discrete point from its four incident
cells. -/
def Grid.updatePoint (g : Grid) (px py : Int) : Grid :=
  let cellNw := g.cellTrav (px - 1) (py - 1)
  let cellNe := g.cellTrav px (py - 1)
  let cellSw := g.cellTrav (px - 1) py
  let cellSe := g.cellTrav px py
  let corner := ((!cellNw || !cellSe) && cellSw && cellNe) ||
                ((!cellNe || !cellSw) && cellNw && cellSe)
  let dcorner := Bool.xor ((!cellNw && !cellSe) && cellSw && cellNe)
                          ((!cellSw && !cellNe) && cellNw && cellSe)
  let visible := cellNw || cellNe || cellSw || cellSe
  { g with
    corner := setBitArr g.corner (g.mapId px py) corner
    dcorner := setBitArr g.dcorner (g.mapId px py) dcorner
    visible := setBitArr g.visible (g.mapId px py) visible }

/-- `set_cell_is_traversable` (grid.py:139-149): write the cell bit and
refresh the four surrounding points. -/
def Grid.setCell (g : Grid) (cx cy : Int) (value : Bool) : Grid :=
  let g1 := { g with cells := setBitArr g.cells (g.mapId cx cy) value }
  ((((g1.updatePoint cx cy).updatePoint (cx + 1) cy).updatePoint cx
      (cy + 1)).updatePoint (cx + 1) (cy + 1))

/-- A sequence of `set_cell_is_traversable` updates. -/
def setCells (g : Grid) (us : List (Int × Int × Bool)) : Grid :=
  us.foldl (fun g u => g.setCell u.1 u.2.1 u.2.2) g

/-- Grids reachable from `init` by `set_cell_is_traversable` updates on
cells inside the original map bounds (this is how `load` builds every
grid). -/
def reachableGrid (width height : Int) (us : List (Int × Int × Bool)) : Prop :=
  ∀ u ∈ us, 0 ≤ u.1 ∧ u.1 < width ∧ 0 ≤ u.2.1 ∧ u.2.1 < height

/-- The `width × height` grid with every original cell traversable. -/
def freeGrid (width height : Nat) : Grid :=
  setCells (initGrid width height)
    ((List.range height).flatMap fun y =>
      (List.range width).map fun x => ((x : Int), (y : Int), true))

/-! ### Word-parallel scans (`grid.py:208-378`) -/

/-- Loop of `scan_cells_right` (grid.py:226-232): keep the current word
index and the masked 32-bit complement word; step one word right until
a set bit appears, then report the word index and the trailing-zero
count. -/
def scanCellsRightLoop (cells : Int → Nat) : Nat → Int → Nat → Option (Int × Nat)
  | 0, _, _ => none
  | fuel + 1, tIndex, obstacles =>
    if obstacles ≠ 0 then some (tIndex, ntz32 obstacles)
    else scanCellsRightLoop cells fuel (tIndex + 1) (compl32 (cells (tIndex + 1)))

/-- `scan_cells_right` (grid.py:208-236). -/
def Grid.scanCellsRight (g : Grid) (fuel : Nat) (x y : Int) : Option Int :=
  let tileId := g.mapId x y
  let tIndex := Int.ediv tileId 32
  let startBit := (Int.emod tileId 32).toNat
  let obstacles := compl32 (g.cells tIndex) &&& compl32 ((1 <<< startBit) - 1)
  (scanCellsRightLoop g.cells fuel tIndex obstacles).map fun r =>
    x + (r.1 - tIndex) * 32 + ((r.2 : Int) - (startBit : Int))

/-- Loop of `scan_cells_left` (grid.py:260-266). -/
def scanCellsLeftLoop (cells : Int → Nat) : Nat → Int → Nat → Option (Int × Nat)
  | 0, _, _ => none
  | fuel + 1, tIndex, obstacles =>
    if obstacles ≠ 0 then some (tIndex, clz32 obstacles)
    else scanCellsLeftLoop cells fuel (tIndex - 1) (compl32 (cells (tIndex - 1)))

/-- `scan_cells_left` (grid.py:238-270). -/
def Grid.scanCellsLeft (g : Grid) (fuel : Nat) (x y : Int) : Option Int :=
  let tileId := g.mapId x y
  let tIndex := Int.ediv tileId 32
  let startBit := (Int.emod tileId 32).toNat
  let opposite := 32 - (startBit + 1)
  let mask := (1 <<< startBit) ||| ((1 <<< startBit) - 1)
  let obstacles := compl32 (g.cells tIndex) &&& mask
  (scanCellsLeftLoop g.cells fuel tIndex obstacles).map fun r =>
    x - ((tIndex - r.1) * 32 + ((r.2 : Int) - (opposite : Int)))

/-- Loop of `scan_right` (grid.py:302-315): step through the lattice
words; a stopping bit is a corner on the row or a cell blocked in both
adjacent rows. -/
def scanRightLatLoop (cells corner : Int → Nat) (wiw : Int) :
    Nat → Int → Nat → Nat → Option (Int × Nat)
  | 0, _, _, _ => none
  | fuel + 1, tIndex, corners, obstacles =>
    if corners ||| obstacles ≠ 0 then some (tIndex, ntz32 (corners ||| obstacles))
    else
      scanRightLatLoop cells corner wiw fuel (tIndex + 1) (corner (tIndex + 1))
        (compl32 (cells (tIndex + 1)) &&& compl32 (cells (tIndex + 1 - wiw)))

/-- `scan_right` (grid.py:272-319): next corner strictly right of the
start, or next obstacle weakly right of it, along the lattice between
`row - 1` and `row`. -/
def Grid.scanRightLat (g : Grid) (fuel : Nat) (x : Q) (row : Int) : Option Int :=
  let leftOfX := pyInt (Q.add x g.smallestStepDiv2)
  let tileId := g.mapId leftOfX row
  let tIndex := Int.ediv tileId 32
  let taIndex := tIndex - g.mapWidthInWords
  let startBit := (Int.emod tileId 32).toNat
  let mask := (1 : Nat) <<< startBit
  let corners := g.corner tIndex &&& compl32 (mask ||| (mask - 1))
  let obstacles := (compl32 (g.cells tIndex) &&& compl32 (g.cells taIndex)) &&& compl32 (mask - 1)
  (scanRightLatLoop g.cells g.corner g.mapWidthInWords fuel tIndex corners obstacles).map
    fun r => leftOfX + ((r.1 - tIndex) * 32 + (r.2 : Int)) - (startBit : Int)

/-- Loop of `scan_left` (grid.py:355-374): corners stop at the set bit
(`+1`), obstacles stop one position before it; take the minimum. -/
def scanLeftLatLoop (cells corner : Int → Nat) (wiw : Int) :
    Nat → Int → Nat → Nat → Option (Int × Nat)
  | 0, _, _, _ => none
  | fuel + 1, tIndex, corners, obstacles =>
    if corners ||| obstacles ≠ 0 then
      some (tIndex, min (clz32 corners + 1) (clz32 obstacles))
    else
      scanLeftLatLoop cells corner wiw fuel (tIndex - 1) (corner (tIndex - 1))
        (compl32 (cells (tIndex - 1)) &&& compl32 (cells (tIndex - 1 - wiw)))

/-- `scan_left` (grid.py:321-378), including the early return when the
nearest discrete point to the left of a non-discrete `x` is already a
corner. -/
def Grid.scanLeftLat (g : Grid) (fuel : Nat) (x : Q) (row : Int) : Option Int :=
  let leftOfX := pyInt x
  if Q.le g.smallestStep (Q.sub x (Q.ofInt leftOfX)) && g.pointCorner leftOfX row then
    some leftOfX
  else
    let tileId := g.mapId leftOfX row
    let tIndex := Int.ediv tileId 32
    let taIndex := tIndex - g.mapWidthInWords
    let startBit := (Int.emod tileId 32).toNat
    let mask := ((1 : Nat) <<< startBit) - 1
    let corners := g.corner tIndex &&& mask
    let obstacles := (compl32 (g.cells tIndex) &&& compl32 (g.cells taIndex)) &&& mask
    (scanLeftLatLoop g.cells g.corner g.mapWidthInWords fuel tIndex corners obstacles).map
      fun r => leftOfX - ((tIndex - r.1) * 32 + (r.2 : Int)) + (32 - (startBit : Int))

/-! ## Intervals (`interval.py`) -/

/-- State of `Interval`: endpoints, row, and the cached discreteness
flags maintained by the `left`/`right` property setters. -/
structure Interv where
  left : Q
  right : Q
  row : Int
  discreteLeft : Bool
  discreteRight : Bool
deriving DecidableEq, Repr

/-- The `left` setter (interval.py:41-47): mark the endpoint discrete
when within `EPSILON` of `int(left + EPSILON)` and snap it there. -/
def setIntervalLeft (i : Interv) (l : Q) : Interv :=
  let dl := Q.lt (Q.abs (Q.sub (Q.ofInt (pyInt (Q.add l EPS))) l)) EPS
  { i with left := if dl then Q.ofInt (pyInt (Q.add l EPS)) else l, discreteLeft := dl }

/-- The `right` setter (interval.py:54-60). -/
def setIntervalRight (i : Interv) (r : Q) : Interv :=
  let dr := Q.lt (Q.abs (Q.sub (Q.ofInt (pyInt (Q.add r EPS))) r)) EPS
  { i with right := if dr then Q.ofInt (pyInt (Q.add r EPS)) else r, discreteRight := dr }

/-- `Interval.__init__` / `init` (interval.py:27-34). -/
def mkInterval (l r : Q) (row : Int) : Interv :=
  setIntervalRight (setIntervalLeft ⟨0, 0, row, false, false⟩ l) r

/-- `Interval.__eq__` (interval.py:90-97): both endpoints within the
absolute tolerance `DOUBLE_INEQUALITY_THRESHOLD = 1e-7` and same row. -/
def intervalEq (a b : Interv) : Bool :=
  Q.lt (Q.abs (Q.sub b.left a.left)) EPS &&
  Q.lt (Q.abs (Q.sub b.right a.right)) EPS &&
  decide (b.row = a.row)

/-- `Interval.covers` (interval.py:75-80). -/
def intervalCovers (a b : Interv) : Bool :=
  if intervalEq a b then true
  else Q.le a.left b.left && Q.le b.right a.right && decide (a.row = b.row)

/-- `Interval.contains` (interval.py:82-88): `int(p.y) == row` and
`left - ε ≤ p.x ≤ right + ε` (two-sided widening). -/
def intervalContains (i : Interv) (px py : Q) : Bool :=
  decide (pyInt py = i.row) && Q.le i.left (Q.add px EPS) && Q.le px (Q.add i.right EPS)

/-- `Interval.range_size`. -/
def intervalRangeSize (i : Interv) : Q := Q.sub i.right i.left

/-! ## Search nodes (`node.py`) -/

/-- State of `Node` that the search and the expander read: the interval
and the root point.  (The `parent` reference and the sympy-based `g`
value of `node.py` are never read by `search.py`, which tracks parents
and g-values on its own `SearchNode` wrapper, so they are not part of
the embedded state.) -/
structure ANode where
  interval : Interv
  rootx : Q
  rooty : Q
deriving DecidableEq, Repr

/-- `Node.from_points` (node.py:44-52). -/
def nodeFromPoints (i : Interv) (rootx rooty : Int) : ANode :=
  ⟨i, Q.ofInt rootx, Q.ofInt rooty⟩

/-- `Node.__eq__` (node.py:101-110): tolerant interval equality plus
exact root equality. -/
def nodeEq (a b : ANode) : Bool :=
  intervalEq b.interval a.interval && Q.veq b.rootx a.rootx && Q.veq b.rooty a.rooty

/-! ## Interval projections (`interval_projection.py`) -/

/-- Scratch state of `IntervalProjection`.  The Python object is reused
and fields persist across calls; each projector below takes the previous
state and overwrites exactly the fields the source assigns. -/
structure Proj where
  left : Q
  right : Q
  maxLeft : Q
  maxRight : Q
  row : Int
  valid : Bool
  observable : Bool
  sterileCheckRow : Int
  checkVisRow : Int
  typeIiiCheckRow : Int
  deadend : Bool
  intermediate : Bool
deriving DecidableEq, Repr

/-- `IntervalProjection.__init__` (interval_projection.py:47-48): only
`valid` is set; the remaining fields are placeholders that the source
leaves unset (reading them before assignment would raise). -/
def Proj.start : Proj := ⟨0, 0, 0, 0, 0, false, false, 0, 0, 0, false, false⟩

/-- `project_flat` (interval_projection.py:136-166). -/
def projectFlat (p : Proj) (g : Grid) (fuel : Nat) (ileft iright : Q) (rootx rooty : Int) :
    Option Proj := do
  if Q.le (Q.ofInt rootx) ileft then
    -- `rootx <= ileft`: Python compares the int root with the float
    -- endpoint numerically.  `self.left := iright`, then scan right.
    (g.scanRightLat fuel iright rooty).bind fun right =>
      let deadend := !(g.cellTrav (pyInt (Q.ofInt right)) rooty &&
                       g.cellTrav (pyInt (Q.ofInt right)) (rooty - 1))
      let inter := g.cellTrav (pyInt iright) rooty && g.cellTrav (pyInt iright) (rooty - 1)
      some { p with left := iright, right := Q.ofInt right, deadend := deadend,
                    intermediate := inter, row := rooty,
                    valid := !Q.veq iright (Q.ofInt right) }
  else
    -- `self.right := ileft`, then scan left.
    (g.scanLeftLat fuel ileft rooty).bind fun left =>
      let deadend := !(g.cellTrav (pyInt (Q.sub (Q.ofInt left) g.smallestStepDiv2)) rooty &&
                       g.cellTrav (pyInt (Q.sub (Q.ofInt left) g.smallestStepDiv2)) (rooty - 1))
      let inter := g.cellTrav (pyInt (Q.ofInt left)) rooty &&
                   g.cellTrav (pyInt (Q.ofInt left)) (rooty - 1)
      some { p with left := Q.ofInt left, right := ileft, deadend := deadend,
                    intermediate := inter, row := rooty,
                    valid := !Q.veq (Q.ofInt left) ileft }

/-- `project_cone` (interval_projection.py:77-134). -/
def projectCone (p : Proj) (g : Grid) (fuel : Nat) (ileft iright : Q) (irow rootx rooty : Int) :
    Option Proj := do
  let p :=
    if rooty < irow then
      { p with checkVisRow := irow, sterileCheckRow := irow + 1, row := irow + 1,
               typeIiiCheckRow := irow - 1 }
    else
      { p with sterileCheckRow := irow - 2, row := irow - 1, checkVisRow := irow - 1,
               typeIiiCheckRow := irow }
  let valid := g.cellTrav (pyInt (Q.add ileft g.smallestStepDiv2)) p.checkVisRow &&
               g.cellTrav (pyInt (Q.sub iright g.smallestStepDiv2)) p.checkVisRow
  let p := { p with valid := valid }
  if !valid then
    return { p with observable := false }
  else
    let rise := Q.ofInt |irow - rooty|
    let lrun := Q.sub (Q.ofInt rootx) ileft
    let rrun := Q.sub iright (Q.ofInt rootx)
    let maxLeft ← g.scanCellsLeft fuel (pyInt ileft) p.checkVisRow
    let maxLeftQ := Q.ofInt (maxLeft + 1)
    let left := Q.vmax (Q.sub ileft (Q.div lrun rise)) maxLeftQ
    let maxRight ← g.scanCellsRight fuel (pyInt iright) p.checkVisRow
    let maxRightQ := Q.ofInt maxRight
    let right := Q.vmin (Q.add iright (Q.div rrun rise)) maxRightQ
    let p := { p with maxLeft := maxLeftQ, left := left, maxRight := maxRightQ, right := right,
                      observable := Q.lt left right }
    let p :=
      if Q.le p.maxRight p.left then
        { p with left := if g.cellTrav (pyInt (Q.sub ileft g.smallestStepDiv2)) p.checkVisRow
                         then p.right else p.maxLeft }
      else p
    let p :=
      if Q.le p.right p.maxLeft then
        { p with right := if g.cellTrav (pyInt iright) p.checkVisRow
                          then p.left else p.maxRight }
      else p
    return p

/-- `project` (interval_projection.py:56-75): reset `observable` and
`valid`, then dispatch on whether the root row equals the interval
row. -/
def projectDispatch (p : Proj) (g : Grid) (fuel : Nat) (ileft iright : Q)
    (irow rootx rooty : Int) : Option Proj :=
  let p := { p with observable := false, valid := false }
  if rooty = irow then projectFlat p g fuel ileft iright rootx rooty
  else projectCone p g fuel ileft iright irow rootx rooty

/-- `project(node, grid)` (interval_projection.py:50-54). -/
def projectNode (p : Proj) (g : Grid) (fuel : Nat) (n : ANode) : Option Proj :=
  projectDispatch p g fuel n.interval.left n.interval.right n.interval.row
    (pyInt n.rootx) (pyInt n.rooty)

/-- `project_f2c` (interval_projection.py:177-247). -/
def projectF2c (p : Proj) (g : Grid) (fuel : Nat) (ileft iright : Q) (irow rootx rooty : Int) :
    Option Proj := do
  if Q.le (Q.ofInt rootx) ileft then
    let canStep := g.cellTrav (pyInt iright) irow && g.cellTrav (pyInt iright) (irow - 1)
    if !canStep then
      return { p with valid := false, observable := false }
    else
      let p :=
        if !g.cellTrav (pyInt (Q.sub iright (Q.ofInt 1))) irow then
          { p with sterileCheckRow := irow + 1, row := irow + 1, checkVisRow := irow }
        else
          { p with row := irow - 1, checkVisRow := irow - 1, sterileCheckRow := irow - 2 }
      let left := iright
      let right ← g.scanCellsRight fuel (pyInt left) p.checkVisRow
      return { p with left := left, maxLeft := left, right := Q.ofInt right,
                      maxRight := Q.ofInt right, valid := true, observable := false }
  else
    let canStep := g.cellTrav (pyInt (Q.sub ileft (Q.ofInt 1))) irow &&
                   g.cellTrav (pyInt (Q.sub ileft (Q.ofInt 1))) (irow - 1)
    if !canStep then
      return { p with valid := false, observable := false }
    else
      let p :=
        if !g.cellTrav (pyInt ileft) irow then
          { p with checkVisRow := irow, sterileCheckRow := irow + 1, row := irow + 1 }
        else
          { p with row := irow - 1, checkVisRow := irow - 1, sterileCheckRow := irow - 2 }
      let rightv := ileft
      let leftv ← g.scanCellsLeft fuel (pyInt (Q.sub rightv (Q.ofInt 1))) p.checkVisRow
      return { p with right := rightv, maxRight := rightv, left := Q.ofInt (leftv + 1),
                      maxLeft := Q.ofInt (leftv + 1), valid := true, observable := false }

/-- `project_f2c(node, grid)` (interval_projection.py:168-175). -/
def projectF2cNode (p : Proj) (g : Grid) (fuel : Nat) (n : ANode) : Option Proj :=
  projectF2c p g fuel n.interval.left n.interval.right n.interval.row
    (pyInt n.rootx) (pyInt n.rooty)

/-! ## The expansion policy (`expansion_policy.py`) -/

/-- Per-instance state of `ExpansionPolicy`: the grid, the validated
start and target nodes, and the pruning flag (default `True`). -/
structure Expander where
  g : Grid
  start : ANode
  target : ANode
  prune : Bool

/-- `self._tx` (expansion_policy.py:100). -/
def Expander.tx (E : Expander) : Q := E.target.rootx

/-- `self._ty` (expansion_policy.py:101). -/
def Expander.ty (E : Expander) : Q := E.target.rooty

/-- `validate_instance` (expansion_policy.py:96-104). -/
def Expander.validateInstance (E : Expander) : Bool :=
  E.g.cellTrav (pyInt E.start.rootx) (pyInt E.start.rooty) &&
  E.g.cellTrav (pyInt E.target.rootx) (pyInt E.target.rooty)

/-- `contains_target` (expansion_policy.py:272-274). -/
def Expander.containsTarget (E : Expander) (left right : Q) (row : Int) : Bool :=
  Q.veq (Q.ofInt row) E.ty && Q.le (Q.sub left EPS) E.tx && Q.le E.tx (Q.add right EPS)

/-- `sterile` (expansion_policy.py:224-229): `not (traversable(l) and
traversable(r))` for `l = int(left + ε)`, `r = int(right - ε)`. -/
def Expander.sterile (E : Expander) (left right : Q) (row : Int) : Bool :=
  let r := pyInt (Q.sub right EPS)
  let l := pyInt (Q.add left EPS)
  !(E.g.cellTrav l row && E.g.cellTrav r row)

/-- `intermediate` (expansion_policy.py:231-270).  Note that the Python
`(v >> 31) == 1` tests are floor shifts of unbounded integers, so
`leftroot`/`rightroot` are `True` only for differences of exactly
`2^31 ≤ d < 2^32`. -/
def Expander.intermediate (E : Expander) (i : Interv) (rootx rooty : Int) : Bool :=
  let row := i.row
  let tmpLeft := pyInt i.left
  let tmpRight := pyInt i.right
  let dl := i.discreteLeft
  let dr := i.discreteRight
  let rightroot := decide (Int.ediv (tmpRight - rootx) 2147483648 = 1)
  let leftroot := decide (Int.ediv (rootx - tmpLeft) 2147483648 = 1)
  let ltp :=
    if rooty < row then
      dl && E.g.pointCorner tmpLeft row &&
        (!E.g.cellTrav (tmpLeft - 1) (row - 1) || leftroot)
    else
      dl && E.g.pointCorner tmpLeft row &&
        (!E.g.cellTrav (tmpLeft - 1) row || leftroot)
  let rtp :=
    if rooty < row then
      dr && E.g.pointCorner tmpRight row &&
        (!E.g.cellTrav tmpRight (row - 1) || rightroot)
    else
      dr && E.g.pointCorner tmpRight row &&
        (!E.g.cellTrav tmpRight row || rightroot)
  !((dl && ltp) || (dr && rtp))

/-- Inner while-loop of `split_interval_make_successors`
(expansion_policy.py:199-211): repeatedly scan left from the right end,
appending one successor per non-sterile segment; also report the last
constructed successor. -/
def splitLoop (E : Expander) (sfuel : Nat) (maxLeft : Q) (irow rootx rooty sterileRow : Int)
    (forced : Bool) :
    Nat → Q → List ANode → Option ANode → Option (List ANode × Option ANode)
  | 0, _, _, _ => none
  | fuel + 1, succLeft0, acc, lastSucc => do
    let succRight := succLeft0
    let sl ← E.g.scanLeftLat sfuel succRight irow
    let succLeft := Q.ofInt sl
    let (acc, lastSucc) ←
      if forced || !E.sterile succLeft succRight sterileRow then do
        let s0 : ANode := ⟨mkInterval succLeft succRight irow, Q.ofInt rootx, Q.ofInt rooty⟩
        let newLeft := if Q.lt succLeft maxLeft then maxLeft else succLeft
        let s : ANode := { s0 with interval := setIntervalLeft s0.interval newLeft }
        pure (acc ++ [s], some s)
      else pure (acc, lastSucc)
    if !(!Q.veq succLeft succRight && Q.lt maxLeft succLeft) then
      return (acc, lastSucc)
    else
      splitLoop E sfuel maxLeft irow rootx rooty sterileRow forced fuel succLeft acc lastSucc

/-- `split_interval_make_successors` (expansion_policy.py:176-222),
including the recursive deepening applied when pruning leaves exactly
one successor whose interval is intermediate. -/
def splitInterval (E : Expander) (sfuel : Nat) :
    Nat → Q → Q → Int → Int → Int → Int → List ANode → Option (List ANode)
  | 0, _, _, _, _, _, _, _ => none
  | fuel + 1, maxLeft, maxRight, irow, rootx, rooty, sterileRow, retval => do
    if Q.veq maxLeft maxRight then return retval
    else
      let forced := !E.prune || E.containsTarget maxLeft maxRight irow
      let (retval', lastSucc) ←
        splitLoop E sfuel maxLeft irow rootx rooty sterileRow forced (fuel + 1) maxRight
          retval none
      match lastSucc with
      | some s =>
        if !forced && retval'.length = retval.length + 1 &&
            E.intermediate s.interval rootx rooty then do
          let retval'' := retval'.dropLast
          let proj ← projectCone Proj.start E.g sfuel s.interval.left s.interval.right
            s.interval.row rootx rooty
          if proj.valid && proj.observable then
            splitInterval E sfuel fuel proj.left proj.right proj.row rootx rooty
              proj.sterileCheckRow retval''
          else return retval''
        else return retval'
      | none => return retval'

/-- `generate_observable_flat__` (expansion_policy.py:387-421): skip an
intermediate projection by reprojecting along the row, then append the
node unless it is a pruned dead end. -/
def genObsFlat (E : Expander) (fuel : Nat) (p : Proj) (rootx rooty : Int)
    (retval : List ANode) : Option (List ANode) := do
  if !p.valid then return retval
  else
    let goal := E.containsTarget p.left p.right p.row
    let (p, goal) ←
      if p.intermediate && E.prune && !goal then do
        let p' ← projectDispatch p E.g fuel p.left p.right p.row rootx rooty
        pure (p', E.containsTarget p'.left p'.right p'.row)
      else pure (p, goal)
    if !p.deadend || !E.prune || goal then
      return retval ++ [⟨mkInterval p.left p.right p.row, Q.ofInt rootx, Q.ofInt rooty⟩]
    else return retval

/-- `flat_node_obs` (expansion_policy.py:383-385). -/
def flatNodeObs (E : Expander) (fuel : Nat) (n : ANode) (retval : List ANode) (p : Proj) :
    Option (List ANode) :=
  genObsFlat E fuel p (pyInt n.rootx) (pyInt n.rooty) retval

/-- `generate_observable_cone__` (expansion_policy.py:286-301). -/
def genObsCone (E : Expander) (fuel : Nat) (p : Proj) (rootx rooty : Int)
    (retval : List ANode) : Option (List ANode) :=
  if !(p.valid && p.observable) then some retval
  else splitInterval E fuel fuel p.left p.right p.row rootx rooty p.sterileCheckRow retval

/-- `cone_node_obs` (expansion_policy.py:276-284). -/
def coneNodeObs (E : Expander) (fuel : Nat) (n : ANode) (retval : List ANode) (p : Proj) :
    Option (List ANode) :=
  genObsCone E fuel p (pyInt n.rootx) (pyInt n.rooty) retval

/-- `cone_node_nobs` (expansion_policy.py:303-381): the three classes of
non-observable conical/flat successors. -/
def coneNodeNobs (E : Expander) (fuel : Nat) (n : ANode) (retval : List ANode) (p : Proj) :
    Option (List ANode) := do
  if !p.valid then return retval
  else
    let ileft := n.interval.left
    let iright := n.interval.right
    let irow := n.interval.row
    if !p.observable then do
      -- non-observable successor type (iii)
      let retval ←
        if Q.lt iright n.rootx && n.interval.discreteRight &&
            E.g.pointCorner (pyInt iright) irow then
          splitInterval E fuel fuel p.maxLeft iright p.row (pyInt iright) irow
            p.sterileCheckRow retval
        else if Q.lt n.rootx ileft && n.interval.discreteLeft &&
            E.g.pointCorner (pyInt ileft) irow then
          splitInterval E fuel fuel ileft p.maxRight p.row (pyInt ileft) irow
            p.sterileCheckRow retval
        else pure retval
      let (p, retval) ←
        if n.interval.discreteLeft &&
            !E.g.cellTrav (pyInt (Q.sub ileft (Q.ofInt 1))) p.typeIiiCheckRow &&
            E.g.cellTrav (pyInt (Q.sub ileft (Q.ofInt 1))) p.checkVisRow then do
          let p' ← projectFlat p E.g fuel (Q.sub ileft E.g.smallestStepDiv2) ileft
            (pyInt ileft) irow
          let r' ← genObsFlat E fuel p' (pyInt ileft) irow retval
          pure (p', r')
        else pure (p, retval)
      let retval ←
        if n.interval.discreteRight &&
            !E.g.cellTrav (pyInt iright) p.typeIiiCheckRow &&
            E.g.cellTrav (pyInt iright) p.checkVisRow then do
          let p' ← projectFlat p E.g fuel iright (Q.add iright E.g.smallestStepDiv2)
            (pyInt iright) irow
          genObsFlat E fuel p' (pyInt iright) irow retval
        else pure retval
      return retval
    else do
      -- non-observable successors type (i) and (ii)
      let cornerRow := irow - Int.ediv (pyInt n.rooty - irow) 2147483648
      let (flatprj, retval) ←
        if n.interval.discreteLeft && E.g.pointCorner (pyInt ileft) irow then do
          let (fp, r1) ←
            if !E.g.cellTrav (pyInt (Q.sub ileft (Q.ofInt 1))) cornerRow then do
              let fp ← projectDispatch Proj.start E.g fuel (Q.sub ileft EPS) iright irow
                (pyInt ileft) irow
              let r1 ← genObsFlat E fuel fp (pyInt ileft) irow retval
              pure (fp, r1)
            else pure (Proj.start, retval)
          let r2 ← splitInterval E fuel fuel p.maxLeft p.left p.row (pyInt ileft) irow
            p.sterileCheckRow r1
          pure (fp, r2)
        else pure (Proj.start, retval)
      let retval ←
        if n.interval.discreteRight && E.g.pointCorner (pyInt iright) irow then do
          let r1 ←
            if !E.g.cellTrav (pyInt iright) cornerRow then do
              let fp ← projectDispatch flatprj E.g fuel ileft (Q.add iright EPS) irow
                (pyInt ileft) irow
              genObsFlat E fuel fp (pyInt iright) irow retval
            else pure retval
          splitInterval E fuel fuel p.right p.maxRight p.row (pyInt iright) irow
            p.sterileCheckRow r1
        else pure retval
      return retval

/-- `flat_node_nobs` (expansion_policy.py:423-437). -/
def flatNodeNobs (E : Expander) (fuel : Nat) (n : ANode) (retval : List ANode) (p : Proj) :
    Option (List ANode) :=
  if !p.valid then some retval
  else
    let newRooty := n.interval.row
    let newRootx := if Q.le n.rootx n.interval.left then pyInt n.interval.right
                    else pyInt n.interval.left
    splitInterval E fuel fuel p.left p.right p.row newRootx newRooty p.sterileCheckRow retval

/-- `generate_successors` (expansion_policy.py:106-121).  The projection
scratch returned by the observable pass is reused for the second
projection, as in the source; `project_f2c` and `project` overwrite
every field the non-observable pass reads. -/
def generateSuccessors (E : Expander) (fuel : Nat) (n : ANode) : Option (List ANode) := do
  if Q.veq n.rooty (Q.ofInt n.interval.row) then do
    let p ← projectNode Proj.start E.g fuel n
    let r1 ← flatNodeObs E fuel n [] p
    let p2 ← projectF2cNode p E.g fuel n
    flatNodeNobs E fuel n r1 p2
  else do
    let p ← projectNode Proj.start E.g fuel n
    let r1 ← coneNodeObs E fuel n [] p
    coneNodeNobs E fuel n r1 p

/-- `generate_start_successors` (expansion_policy.py:123-174). -/
def generateStartSuccessors (E : Expander) (fuel : Nat) (n : ANode) : Option (List ANode) := do
  let startDc := E.g.pointDoubleCorner (pyInt n.rootx) (pyInt n.rooty)
  if startDc && !E.g.cellTrav (pyInt n.rootx) (pyInt n.rooty) then return []
  else
    let rootx := pyInt n.rootx
    let rooty := pyInt n.rooty
    -- flat observable successors left of the start point (fake root x+1)
    let r1 ←
      if !startDc then do
        let p ← projectDispatch Proj.start E.g fuel (Q.ofInt rootx) (Q.ofInt rootx) rooty
          (rootx + 1) rooty
        genObsFlat E fuel p rootx rooty []
      else pure []
    -- flat observable successors right of the start point (fake root x-1)
    let p2 ← projectDispatch Proj.start E.g fuel (Q.ofInt rootx) (Q.ofInt rootx) rooty
      (rootx - 1) rooty
    let r2 ← genObsFlat E fuel p2 rootx rooty r1
    -- conical observable successors below the start point
    let ml ← E.g.scanCellsLeft fuel rootx rooty
    let maxLeft := ml + 1
    let maxRight ← E.g.scanCellsRight fuel rootx rooty
    let r3 ←
      if maxLeft ≠ rootx && !startDc then
        splitInterval E fuel fuel (Q.ofInt maxLeft) (Q.ofInt rootx) (rooty + 1) rootx rooty
          (rooty + 1) r2
      else pure r2
    let r4 ←
      if maxRight ≠ rootx then
        splitInterval E fuel fuel (Q.ofInt rootx) (Q.ofInt maxRight) (rooty + 1) rootx rooty
          (rooty + 1) r3
      else pure r3
    -- conical observable successors above the start point
    let ml2 ← E.g.scanCellsLeft fuel (rootx - 1) (rooty - 1)
    let maxLeft2 := ml2 + 1
    let maxRight2 ← E.g.scanCellsRight fuel rootx (rooty - 1)
    let r5 ←
      if maxLeft2 ≠ rootx && !startDc then
        splitInterval E fuel fuel (Q.ofInt maxLeft2) (Q.ofInt rootx) (rooty - 1) rootx rooty
          (rooty - 2) r4
      else pure r4
    let r6 ←
      if maxRight2 ≠ rootx then
        splitInterval E fuel fuel (Q.ofInt rootx) (Q.ofInt maxRight2) (rooty - 1) rootx rooty
          (rooty - 2) r5
      else pure r5
    return r6

/-- `expand` (expansion_policy.py:64-74). -/
def Expander.expand (E : Expander) (fuel : Nat) (n : ANode) : Option (List ANode) :=
  if nodeEq n E.start then generateStartSuccessors E fuel n
  else generateSuccessors E fuel n

/-- `hash` (expansion_policy.py:439-441): dedup key of a root point. -/
def Expander.nodeHash (E : Expander) (n : ANode) : Int :=
  pyInt n.rooty * E.g.mapWidth + pyInt n.rootx

/-! ## Heuristics (`heuristic.py`)

Square roots are kept abstract: every ordered-field quantity lives in a
`LinearOrderedField K` and `sq : K → K` stands for `x ** 0.5`; the
theorems use `K := ℝ`, `sq := Real.sqrt`. -/

/-- `EuclideanDistanceHeuristic.h` (heuristic.py:34-35). -/
def eucH (K : Type) [LinearOrderedField K] (sq : K → K) (x1 y1 x2 y2 : Q) : K :=
  sq ((x1.toK K - x2.toK K) ^ 2 + (y1.toK K - y2.toK K) ^ 2)

/-- `Heuristic.get_value(n, t)` (heuristic.py:120-161).  The opening
assertion (the target carries a point interval) holds for every target
the embedded searches pass.  The unguarded `nan` projections of the
source are modelled as `none`, and the two comparisons against them
follow IEEE semantics: any comparison with `nan` is false. -/
def getValue (K : Type) [LinearOrderedField K] (sq : K → K) (n t : ANode) : K :=
  let irow := n.interval.row
  let ileft := n.interval.left
  let iright := n.interval.right
  let targetx := t.rootx
  let rootx := n.rootx
  let rooty := n.rooty
  let targety :=
    if Q.lt rooty (Q.ofInt irow) && Q.lt t.rooty (Q.ofInt irow) then
      Q.add t.rooty (Q.mul (Q.ofInt 2) (Q.sub (Q.ofInt irow) t.rooty))
    else if Q.lt (Q.ofInt irow) rooty && Q.lt (Q.ofInt irow) t.rooty then
      Q.sub t.rooty (Q.mul (Q.ofInt 2) (Q.sub t.rooty (Q.ofInt irow)))
    else t.rooty
  let riseRootIrow := Q.abs (Q.sub n.rooty (Q.ofInt n.interval.row))
  let riseIrowTarget := Q.abs (Q.sub (Q.ofInt n.interval.row) t.rooty)
  let lrun := Q.sub n.rootx n.interval.left
  let rrun := Q.sub n.interval.right n.rootx
  let leftProj : Option Q :=
    if !Q.veq riseRootIrow 0 then
      some (Q.sub n.interval.left (Q.mul riseIrowTarget (Q.div lrun riseRootIrow)))
    else none
  let rightProj : Option Q :=
    if !Q.veq riseRootIrow 0 then
      some (Q.add n.interval.right (Q.mul riseIrowTarget (Q.div rrun riseRootIrow)))
    else none
  if (match leftProj with
      | none => false
      | some lp => Q.lt (Q.add t.rootx EPS) lp) then
    eucH K sq rootx rooty ileft (Q.ofInt irow) + eucH K sq ileft (Q.ofInt irow) targetx targety
  else if (match rightProj with
      | none => false
      | some rp => Q.lt (Q.add rp EPS) t.rootx) then
    eucH K sq rootx rooty iright (Q.ofInt irow) + eucH K sq iright (Q.ofInt irow) targetx targety
  else
    eucH K sq rootx rooty targetx targety

/-- `step_cost` (expansion_policy.py:88-94): Euclidean distance between
the root of the node being expanded and the root of its successor. -/
def stepCost (K : Type) [LinearOrderedField K] (sq : K → K) (a b : ANode) : K :=
  eucH K sq a.rootx a.rooty b.rootx b.rooty

/-! ## The Fibonacci heap (`fibonacci_heap.py`, `fibonacci_heap_node.py`) -/

/-- Errors a Python execution can surface: an uncaught `TypeError`, or
(model-only) fuel exhaustion of an unbounded loop. -/
inductive PyErr where
  | typeError
  | outOfFuel
deriving DecidableEq, Repr

/-- `SearchNode` (search.py:11-39) wrapping `FibonacciHeapNode`
(fibonacci_heap_node.py): payload, primary key, secondary key and
parent. -/
inductive SNode (K : Type) where
  | mk (data : ANode) (key : K) (skey : K) (parent : Option (SNode K))

/-- Payload accessor. -/
def SNode.data {K : Type} : SNode K → ANode
  | .mk d _ _ _ => d

/-- Primary key accessor. -/
def SNode.key {K : Type} : SNode K → K
  | .mk _ k _ _ => k

/-- Secondary key (the g-value) accessor. -/
def SNode.skey {K : Type} : SNode K → K
  | .mk _ _ s _ => s

/-- Parent accessor. -/
def SNode.parent {K : Type} : SNode K → Option (SNode K)
  | .mk _ _ _ p => p

/-- `FibonacciHeapNode.less_than` (fibonacci_heap_node.py:56-75): the
four-parameter static fixed-point comparison — scale both key pairs by
`BIG_ONE = 1e5`, truncate, prefer the lower primary and, on ties, the
higher secondary. -/
def lessThan (K : Type) [LinearOrderedField K] [FloorRing K] (pkA skA pkB skB : K) : Bool :=
  let tk := ⌊pkA * 100000 + 1/2⌋
  let to' := ⌊pkB * 100000 + 1/2⌋
  if tk < to' then true
  else if tk = to' then decide (⌊skB * 100000 + 1/2⌋ < ⌊skA * 100000 + 1/2⌋)
  else false

/-- `FibonacciHeap.insert` (fibonacci_heap.py:135-170).

When the heap is empty the new node simply becomes the min pointer.
When it is not, the source executes `if node.less_than(self._min_node)`
(fibonacci_heap.py:151).  `less_than` is the four-parameter
`@staticmethod` above, so this call passes a single argument to a
function with four required positional parameters and raises
`TypeError` before any comparison is made.  Consequently a reachable
heap never holds more than one node, and the heap state is an
`Option`. -/
def heapInsert (K : Type) (h : Option (SNode K)) (n : SNode K) :
    Except PyErr (Option (SNode K)) :=
  match h with
  | none => .ok (some n)
  | some _ => .error .typeError

/-- `FibonacciHeap.remove_min` (fibonacci_heap.py:172-215) restricted to
the reachable heaps (at most one element, no children): return the min
pointer and the empty heap. -/
def heapRemoveMin (K : Type) (h : Option (SNode K)) : Option (SNode K) × Option (SNode K) :=
  (h, none)

/-! ## The search (`search.py`) -/

/-- Mutable state of `search_costonly`'s loop: the open list and the
`roots_` map from root hash to its best-known search node. -/
structure SState (K : Type) where
  openList : Option (SNode K)
  roots : Int → Option (SNode K)

/-- The `while self._expander.has_next()` loop of `search_costonly`
(search.py:179-240): root-level pruning followed by the conditional
insertion of each successor. -/
def processSuccs (K : Type) [LinearOrderedField K] (sq : K → K) (E : Expander)
    (target : ANode) (current : SNode K) (pHash : Int) :
    List ANode → SState K → Except PyErr (SState K)
  | [], st => .ok st
  | succ :: rest, st => do
    let rootHash := E.nodeHash succ
    let rootRep := st.roots rootHash
    let newG := current.skey + stepCost K sq current.data succ
    let ins : Bool :=
      match rootRep with
      | none => true
      | some rep =>
        let i0 := decide (newG - rep.skey ≤ EPS.toK K)
        let e0 := decide (-(EPS.toK K) ≤ newG - rep.skey)
        match rep.parent with
        | some repPar =>
          if i0 && e0 then decide (rootHash = pHash) || decide (E.nodeHash repPar.data = pHash)
          else i0
        | none => i0
    if ins then do
      let value := getValue K sq succ target
      let neighbour : SNode K := .mk succ (newG + value) newG (some current)
      let open' ← heapInsert K st.openList neighbour
      processSuccs K sq E target current pHash rest
        ⟨open', fun h => if h = rootHash then some neighbour else st.roots h⟩
    else
      processSuccs K sq E target current pHash rest st

/-- The `while not self.open.is_empty()` loop of `search_costonly`
(search.py:156-241): pop the minimum, expand it, stop if its interval
contains the target, otherwise process the successors. -/
def searchLoop (K : Type) [LinearOrderedField K] (sq : K → K) (E : Expander) (sfuel : Nat)
    (target : ANode) : Nat → SState K → Except PyErr (K × Bool)
  | 0, _ => .error .outOfFuel
  | fuel + 1, st =>
    match heapRemoveMin K st.openList with
    | (none, _) => .ok (-1, false)
    | (some current, rest) =>
      match E.expand sfuel current.data with
      | none => .error .outOfFuel
      | some succs =>
        if intervalContains current.data.interval target.rootx target.rooty then
          .ok (current.key, true)
        else
          let pHash := E.nodeHash current.data
          match processSuccs K sq E target current pHash succs { st with openList := rest } with
          | .error e => .error e
          | .ok st' => searchLoop K sq E sfuel target fuel st'

/-- `search_costonly` (search.py:135-244): validate the instance, insert
the start node with priority `(h(start, target), 0)` into the empty open
list, and run the best-first loop.  The result is the cost together with
the `path_found` flag. -/
def searchCostonly (K : Type) [LinearOrderedField K] (sq : K → K) (g : Grid)
    (start target : ANode) (sfuel lfuel : Nat) : Except PyErr (K × Bool) :=
  let E : Expander := ⟨g, start, target, true⟩
  if !E.validateInstance then .ok (-1, false)
  else
    let startNode : SNode K := .mk start (getValue K sq start target) 0 none
    -- inserting into the empty heap only sets the min pointer
    searchLoop K sq E sfuel target lfuel ⟨some startNode, fun _ => none⟩

/-- `Path` (path.py): a linked list of vertices with per-node cumulative
cost; `PyPath.empty` is the attribute-less `Path()` created at the start
of `Search.search`. -/
inductive PyPath (K : Type) where
  | empty : PyPath K
  | cons (data : ANode) (next : PyPath K) (cost : K) : PyPath K

/-- The path-building loop of `Search.search` (search.py:127-132):
starting from a node, prepend `Path(node.data, path, node.secondary_key)`
and follow the parent chain. -/
def buildPathFrom (K : Type) : SNode K → PyPath K → PyPath K
  | .mk d _ sk none, acc => .cons d acc sk
  | .mk d _ sk (some p), acc => buildPathFrom K p (.cons d acc sk)

/-- `Search.search` (search.py:119-133): run `search_costonly`; when the
cost is not `-1`, build the path from `self.generate(target)` — a
freshly constructed `SearchNode` wrapping the target, whose `parent` is
`None` and whose `secondary_key` is `0`. -/
def searchPath (K : Type) [LinearOrderedField K] (sq : K → K) (g : Grid)
    (start target : ANode) (sfuel lfuel : Nat) : Except PyErr (PyPath K) :=
  match searchCostonly K sq g start target sfuel lfuel with
  | .error e => .error e
  | .ok (cost, _) =>
    if cost = -1 then .ok .empty
    else .ok (buildPathFrom K (.mk target 0 0 none) .empty)

/-- Total Euclidean length of the segments of a path, with `sq` as the
square-root function (used to compare a reconstructed path against the
reported cost). -/
def pathSegLength (K : Type) [LinearOrderedField K] (sq : K → K) : PyPath K → K
  | .empty => 0
  | .cons _ .empty _ => 0
  | .cons a (.cons b next c) _ =>
    eucH K sq a.rootx a.rooty b.rootx b.rooty + pathSegLength K sq (.cons b next c)

/-- Number of vertices on a path. -/
def pathLen (K : Type) : PyPath K → Nat
  | .empty => 0
  | .cons _ next _ => pathLen K next + 1

/-! ## Example instances used by concrete theorems -/

/-- The fully traversable 3×3 grid of spec scenario S1. -/
def g3free : Grid := freeGrid 3 3

/-- The 3×3 grid with the single cell `(2, 0)` blocked. -/
def gBlock20 : Grid := setCells (freeGrid 3 3) [(2, 0, false)]

/-- A start/target node as the scenario runner builds it: a point
interval at a discrete root. -/
def mkPointNode (x y : Int) : ANode :=
  ⟨mkInterval (Q.ofInt x) (Q.ofInt x) y, Q.ofInt x, Q.ofInt y⟩

/-- An expander instance on `gBlock20` (the target plays no role in the
`sterile` test). -/
def eBlock20 : Expander := ⟨gBlock20, mkPointNode 0 0, mkPointNode 0 2, true⟩

/-! ## Small lemmas about `Q` -/

/-- The zero literal of `Q`. -/
theorem q_zero_eq : (0 : Q) = ⟨0, 1⟩ := rfl

/-- Fractions equal in value are not `<`-related, in either order. -/
theorem veq_lt_false {a b : Q} (h : Q.veq a b = true) :
    Q.lt a b = false ∧ Q.lt b a = false := by
  simp only [Q.veq, decide_eq_true_eq] at h
  refine ⟨by simp [Q.lt, h], by simp [Q.lt, ← h]⟩

/-- The absolute difference of value-equal fractions is zero-valued. -/
theorem veq_sub_abs {a b : Q} (h : Q.veq a b = true) :
    Q.veq (Q.abs (Q.sub a b)) 0 = true := by
  simp only [Q.veq, decide_eq_true_eq] at h
  simp [Q.veq, Q.abs, Q.sub, h, q_zero_eq]

/-- `int()` of an integer-valued fraction with denominator one. -/
theorem pyInt_ofInt (n : Int) : pyInt (Q.ofInt n) = n := by
  simp [pyInt, Q.ofInt]

/-! ## C10 — interval equality is not transitive -/

/-- C10: `Interval.__eq__` compares each endpoint with absolute
tolerance `1e-7`, so equality is not transitive: with
`a.left = 0.5`, `b.left = 0.5 + 9e-8`, `c.left = 0.5 + 1.8e-7` (all
rights `1.5`, same row) we get `a == b` and `b == c` but not `a == c`;
the same tolerance inside `covers` makes `covers` non-transitive too.
Hence neither relation is an equivalence relation. -/
theorem C10_interval_eq_not_transitive :
    (intervalEq (mkInterval ⟨1, 2⟩ ⟨3, 2⟩ 0) (mkInterval ⟨50000009, 100000000⟩ ⟨3, 2⟩ 0) = true ∧
     intervalEq (mkInterval ⟨50000009, 100000000⟩ ⟨3, 2⟩ 0)
       (mkInterval ⟨50000018, 100000000⟩ ⟨3, 2⟩ 0) = true ∧
     intervalEq (mkInterval ⟨1, 2⟩ ⟨3, 2⟩ 0) (mkInterval ⟨50000018, 100000000⟩ ⟨3, 2⟩ 0) = false) ∧
    (intervalCovers (mkInterval ⟨50000009, 100000000⟩ ⟨2, 1⟩ 0) (mkInterval ⟨1, 2⟩ ⟨2, 1⟩ 0) = true ∧
     intervalCovers (mkInterval ⟨1, 2⟩ ⟨2, 1⟩ 0) (mkInterval ⟨1, 2⟩ ⟨1, 1⟩ 0) = true ∧
     intervalCovers (mkInterval ⟨50000009, 100000000⟩ ⟨2, 1⟩ 0)
       (mkInterval ⟨1, 2⟩ ⟨1, 1⟩ 0) = false) ∧
    ¬ (∀ a b c : Interv, intervalEq a b = true → intervalEq b c = true →
        intervalEq a c = true) := by
  refine ⟨by decide, by decide, fun h => ?_⟩
  have := h (mkInterval ⟨1, 2⟩ ⟨3, 2⟩ 0) (mkInterval ⟨50000009, 100000000⟩ ⟨3, 2⟩ 0)
    (mkInterval ⟨50000018, 100000000⟩ ⟨3, 2⟩ 0) (by decide) (by decide)
  exact absurd this (by decide)

/-! ## C4 — the sterile test is an OR of blocked cells, not an AND -/

/-- C4 counterexample: on the 3×3 grid with only `(2,0)` blocked,
`sterile(0, 3, 0)` is `true` although the cell at `⌊left+ε⌋ = (0,0)` is
traversable — so `sterile` does not equal "both endpoint-adjacent cells
are non-traversable" as the claim states. -/
theorem C4_sterile_counterexample :
    eBlock20.sterile (Q.ofInt 0) (Q.ofInt 3) 0 ≠
      (!eBlock20.g.cellTrav (pyInt (Q.add (Q.ofInt 0) EPS)) 0 &&
       !eBlock20.g.cellTrav (pyInt (Q.sub (Q.ofInt 3) EPS)) 0) := by decide

/-- C4 amended: `sterile(left, right, row)` returns `true` iff at least
one of the two cells `(⌊left+ε⌋, row)`, `(⌊right−ε⌋, row)` is
non-traversable (the source computes `not (trav(l) and trav(r))`);
consequently a segment produced by `split_interval_make_successors` is
skipped as sterile when either endpoint-adjacent cell is blocked, not
only when both are. -/
theorem C4_sterile_or (E : Expander) (left right : Q) (row : Int) :
    E.sterile left right row =
      (!E.g.cellTrav (pyInt (Q.add left EPS)) row ||
       !E.g.cellTrav (pyInt (Q.sub right EPS)) row) := by
  simp [Expander.sterile]

/-! ## C5 — the flat dead-end flag is an OR of blocked cells -/

/-- C5 counterexample: on the 3×3 grid with `(2,0)` blocked, the flat
projection of the point interval `[0,0]` on row 1 (root left of the
interval) stops at the corner `right = 2` and sets `dead_end = true`,
although the cell `(2, 1)` on the root row is traversable — so the
"both adjacent cells blocked" characterisation of the claim fails. -/
theorem C5_deadend_counterexample :
    (projectFlat Proj.start gBlock20 99 (Q.ofInt 0) (Q.ofInt 0) 0 1).map
        (fun p => (p.right, p.deadend)) = some (Q.ofInt 2, true) ∧
      gBlock20.cellTrav 2 1 = true := by decide

/-- C5 amended: for a flat projection whose root lies weakly left of the
interval, `dead_end` is set iff at least one of the two cells adjacent
to the far endpoint `right` — on the root row `ry` and on the row
`ry − 1` above — is blocked (the source computes
`not (trav(right, ry) and trav(right, ry-1))`). -/
theorem C5_flat_deadend_or (g : Grid) (fuel : Nat) (p0 p : Proj) (ileft iright : Q)
    (rootx rooty : Int) (hroot : Q.le (Q.ofInt rootx) ileft = true)
    (hp : projectFlat p0 g fuel ileft iright rootx rooty = some p) :
    p.deadend = (!g.cellTrav (pyInt p.right) rooty ||
                 !g.cellTrav (pyInt p.right) (rooty - 1)) := by
  unfold projectFlat at hp
  rw [if_pos hroot] at hp
  cases hscan : g.scanRightLat fuel iright rooty with
  | none => rw [hscan] at hp; simp [Option.bind] at hp
  | some r =>
    rw [hscan] at hp
    simp only [Option.bind_eq_bind, Option.some_bind, Option.some.injEq] at hp
    subst hp
    simp

/-- C5 witness: the amended characterisation applied to the concrete
projection of the counterexample grid. -/
theorem C5_flat_deadend_or_witness :
    (projectFlat Proj.start gBlock20 99 (Q.ofInt 0) (Q.ofInt 0) 0 1).map
        (fun p => (p.deadend = (!gBlock20.cellTrav (pyInt p.right) 1 ||
          !gBlock20.cellTrav (pyInt p.right) 0) : Bool)) = some true := by
  cases hp : projectFlat Proj.start gBlock20 99 (Q.ofInt 0) (Q.ofInt 0) 0 1 with
  | none => exact absurd hp (by decide)
  | some p =>
    have := C5_flat_deadend_or gBlock20 99 Proj.start p (Q.ofInt 0) (Q.ofInt 0) 0 1
      (by decide) hp
    simp [Option.map, this]

/-! ## C6 — the heuristic's flat case returns the direct distance -/

/-- Flat node for the C6 instance: root `(0,0)` on the row of its point
interval `[3,3]` at row 0. -/
def n6 : ANode := ⟨mkInterval (Q.ofInt 3) (Q.ofInt 3) 0, Q.ofInt 0, Q.ofInt 0⟩

/-- Point-interval target `(6,4)` for the C6 instance. -/
def t6 : ANode := mkPointNode 6 4

/-- C6 amended: when the root lies on the interval row (`rise == 0`),
`Heuristic.get_value` returns the direct Euclidean distance
`‖R − T‖` — both projected endpoints are `nan` and the two comparisons
against them are false — rather than the two-segment endpoint
heuristic that the spec describes. -/
theorem C6_flat_heuristic_direct (K : Type) [LinearOrderedField K] (sq : K → K) (n t : ANode)
    (hpoint : Q.veq t.rooty (Q.ofInt t.interval.row) = true ∧
              Q.veq t.rootx t.interval.left = true ∧ Q.veq t.rootx t.interval.right = true)
    (hflat : Q.veq n.rooty (Q.ofInt n.interval.row) = true) :
    getValue K sq n t = eucH K sq n.rootx n.rooty t.rootx t.rooty := by
  have h1 := (veq_lt_false hflat).1
  have h2 := (veq_lt_false hflat).2
  have h3 := veq_sub_abs hflat
  simp [getValue, h1, h2, h3]

/-- C6 witness: the amended statement at the concrete flat node `n6`
and point target `t6`. -/
theorem C6_flat_heuristic_direct_witness :
    Q.veq n6.rooty (Q.ofInt n6.interval.row) = true ∧
    getValue ℝ Real.sqrt n6 t6 = eucH ℝ Real.sqrt n6.rootx n6.rooty t6.rootx t6.rooty :=
  ⟨by decide, C6_flat_heuristic_direct ℝ Real.sqrt n6 t6 ⟨by decide, by decide, by decide⟩
    (by decide)⟩

/-- C6 counterexample: at `n6`, `t6` the heuristic value is `√52`
(the direct distance), while the two-segment cost through the (unique)
interval endpoint `(3,0)` is `√9 + √25 = 8 ≠ √52` — so the claim that
the flat case returns the endpoint heuristic is false. -/
theorem C6_heuristic_counterexample :
    getValue ℝ Real.sqrt n6 t6 = Real.sqrt 52 ∧
    eucH ℝ Real.sqrt n6.rootx n6.rooty n6.interval.left (Q.ofInt n6.interval.row) +
      eucH ℝ Real.sqrt n6.interval.left (Q.ofInt n6.interval.row) t6.rootx t6.rooty = 8 ∧
    n6.interval.left = n6.interval.right ∧
    Real.sqrt 52 ≠ 8 := by
  have hl : n6.interval.left = ⟨3, 1⟩ := by decide
  have hr : n6.rootx = ⟨0, 1⟩ := rfl
  have hry : n6.rooty = ⟨0, 1⟩ := rfl
  have htx : t6.rootx = ⟨6, 1⟩ := rfl
  have hty : t6.rooty = ⟨4, 1⟩ := rfl
  have hrow : n6.interval.row = 0 := rfl
  have sqrt9 : Real.sqrt 9 = 3 := by
    rw [show (9 : ℝ) = 3 ^ 2 by norm_num, Real.sqrt_sq (by norm_num)]
  have sqrt25 : Real.sqrt 25 = 5 := by
    rw [show (25 : ℝ) = 5 ^ 2 by norm_num, Real.sqrt_sq (by norm_num)]
  refine ⟨?_, ?_, by decide, ?_⟩
  · have hdir : getValue ℝ Real.sqrt n6 t6 =
        eucH ℝ Real.sqrt n6.rootx n6.rooty t6.rootx t6.rooty := by
      have h1 := (veq_lt_false (a := n6.rooty) (b := Q.ofInt n6.interval.row) (by decide)).1
      have h2 := (veq_lt_false (a := n6.rooty) (b := Q.ofInt n6.interval.row) (by decide)).2
      have h3 := veq_sub_abs (a := n6.rooty) (b := Q.ofInt n6.interval.row) (by decide)
      simp [getValue, h1, h2, h3]
    rw [hdir, hr, hry, htx, hty]
    simp only [eucH, Q.toK, Q.ofInt]
    norm_num
  · rw [hl, hr, hry, htx, hty, hrow]
    simp only [eucH, Q.toK, Q.ofInt]
    norm_num
    rw [sqrt9, sqrt25]
    norm_num
  · intro h
    have h2 := congrArg (fun x : ℝ => x ^ 2) h
    simp only [Real.sq_sqrt (by norm_num : (52 : ℝ) ≥ 0)] at h2
    norm_num at h2

/-! ## C9 — the point classification invariant -/

/-- Every bit position below 32 is set in the all-ones word. -/
theorem testBit_allones {b : Nat} (hb : b < 32) : Nat.testBit 4294967295 b = true := by
  rw [show (4294967295 : ℕ) = 2 ^ 32 - 1 by norm_num, Nat.testBit_two_pow_sub_one]
  simpa using hb

/-- Reading after writing a bitmap bit: only the written id changes. -/
theorem getBit_setBit (arr : Int → Nat) (id id' : Int) (v : Bool) :
    getBitArr (setBitArr arr id v) id' = if id' = id then v else getBitArr arr id' := by
  have hmod : ∀ a : Int, Int.emod a 32 = a % 32 := fun _ => rfl
  have hdiv : ∀ a : Int, Int.ediv a 32 = a / 32 := fun _ => rfl
  have hW : W32M = 2 ^ 32 - 1 := by norm_num [W32M]
  have hb32 : (Int.emod id 32).toNat < 32 := by rw [hmod]; omega
  unfold getBitArr setBitArr
  by_cases hid : id' = id
  · subst hid
    simp only [if_pos rfl]
    cases v with
    | true =>
      simp [Nat.testBit_or, Nat.shiftLeft_eq, Nat.testBit_two_pow]
    | false =>
      simp [Nat.testBit_and, compl32, hW, Nat.testBit_xor, Nat.shiftLeft_eq,
        Nat.testBit_two_pow, Nat.testBit_two_pow_sub_one, hb32, testBit_allones hb32]
  · by_cases hw : Int.ediv id' 32 = Int.ediv id 32
    · have hbne : (Int.emod id' 32).toNat ≠ (Int.emod id 32).toNat := by
        rw [hmod, hmod]
        rw [hdiv, hdiv] at hw
        omega
      rw [if_neg hid, hw, if_pos rfl]
      cases v with
      | true =>
        simp [Nat.testBit_or, Nat.shiftLeft_eq, Nat.testBit_two_pow, hw,
          Ne.symm hbne]
      | false =>
        have hb32' : (Int.emod id' 32).toNat < 32 := by rw [hmod]; omega
        simp [Nat.testBit_and, compl32, hW, Nat.testBit_xor, Nat.shiftLeft_eq,
          Nat.testBit_two_pow, Nat.testBit_two_pow_sub_one, hw, Ne.symm hbne, hb32',
          testBit_allones hb32']
    · rw [if_neg hid, if_neg hw]

/-- The invariant of C9, stated over raw bitmap ids: wherever the
double-corner bit is set the corner bit is set, and wherever the corner
bit is set the visible bit is set. -/
def triOk (g : Grid) : Prop :=
  ∀ id : Int, (getBitArr g.dcorner id = true → getBitArr g.corner id = true) ∧
              (getBitArr g.corner id = true → getBitArr g.visible id = true)

/-- The all-blocked grid satisfies the invariant (all bitmaps zero). -/
theorem triOk_init (w h : Int) : triOk (initGrid w h) := by
  intro id
  constructor <;> simp [getBitArr, initGrid, Nat.zero_testBit]

/-- `update_point` preserves the invariant: the freshly computed triple
of flags satisfies both implications pointwise, and no other id
changes. -/
theorem triOk_updatePoint {g : Grid} (hg : triOk g) (px py : Int) :
    triOk (g.updatePoint px py) := by
  intro id
  unfold Grid.updatePoint
  simp only [getBit_setBit]
  by_cases hid : id = g.mapId px py
  · simp only [if_pos hid]
    generalize g.cellTrav (px - 1) (py - 1) = nw
    generalize g.cellTrav px (py - 1) = ne'
    generalize g.cellTrav (px - 1) py = sw
    generalize g.cellTrav px py = se
    revert nw ne' sw se
    decide
  · simp only [if_neg hid]
    exact hg id

/-- `set_cell_is_traversable` preserves the invariant: the cell write
does not touch the point bitmaps, and the four `update_point` calls
preserve it. -/
theorem triOk_setCell {g : Grid} (hg : triOk g) (cx cy : Int) (v : Bool) :
    triOk (g.setCell cx cy v) := by
  unfold Grid.setCell
  apply triOk_updatePoint
  apply triOk_updatePoint
  apply triOk_updatePoint
  apply triOk_updatePoint
  intro id
  exact hg id

/-- Any sequence of cell updates preserves the invariant. -/
theorem triOk_setCells {g : Grid} (hg : triOk g) (us : List (Int × Int × Bool)) :
    triOk (setCells g us) := by
  induction us generalizing g with
  | nil => exact hg
  | cons u rest ih => exact ih (triOk_setCell hg u.1 u.2.1 u.2.2)

/-- C9: after any sequence of `set_cell_is_traversable` updates starting
from the all-blocked grid, every discrete point satisfies
`double_corner ⇒ corner` and `corner ⇒ visible`. -/
theorem C9_point_flag_invariant (width height : Int) (us : List (Int × Int × Bool))
    (x y : Int) :
    ((setCells (initGrid width height) us).pointDoubleCorner x y = true →
      (setCells (initGrid width height) us).pointCorner x y = true) ∧
    ((setCells (initGrid width height) us).pointCorner x y = true →
      (setCells (initGrid width height) us).pointVisible x y = true) :=
  triOk_setCells (triOk_init width height) us ((setCells (initGrid width height) us).mapId x y)

/-- C9 witness: a pinch grid with a genuine double corner at `(1,1)`,
where both implications fire. -/
theorem C9_point_flag_invariant_witness :
    (setCells (initGrid 2 2) [(1, 0, true), (0, 1, true)]).pointDoubleCorner 1 1 = true ∧
    (setCells (initGrid 2 2) [(1, 0, true), (0, 1, true)]).pointCorner 1 1 = true ∧
    (setCells (initGrid 2 2) [(1, 0, true), (0, 1, true)]).pointVisible 1 1 = true :=
  ⟨by decide, (C9_point_flag_invariant 2 2 [(1, 0, true), (0, 1, true)] 1 1).1 (by decide),
    (C9_point_flag_invariant 2 2 [(1, 0, true), (0, 1, true)] 1 1).2
      ((C9_point_flag_invariant 2 2 [(1, 0, true), (0, 1, true)] 1 1).1 (by decide))⟩

/-! ## C1 — inserting a second successor raises `TypeError` -/

/-- Start node of the C1 instance: `(1, 1)` on the all-free 3×3 grid. -/
def s11 : ANode := mkPointNode 1 1

/-- Target node `(2, 2)`. -/
def t22 : ANode := mkPointNode 2 2

/-- First start successor produced by `generate_start_successors` for
`s11`: the degenerate flat interval `[0,0]` on row 1, root `(1,1)`. -/
def a1 : ANode := ⟨⟨⟨0, 1⟩, ⟨0, 1⟩, 1, true, true⟩, ⟨1, 1⟩, ⟨1, 1⟩⟩

/-- Second start successor: the cone interval `[1,3]` on row 2 (it
contains the target), root `(1,1)`. -/
def a2 : ANode := ⟨⟨⟨1, 1⟩, ⟨3, 1⟩, 2, true, true⟩, ⟨1, 1⟩, ⟨1, 1⟩⟩

/-- The C1 expander instance. -/
def E11 : Expander := ⟨g3free, s11, t22, true⟩

/-- Step cost between coincident roots `(1,1)` is `√0 = 0`. -/
theorem stepCost_s11_self (b : ANode) (hx : b.rootx = ⟨1, 1⟩) (hy : b.rooty = ⟨1, 1⟩) :
    stepCost ℝ Real.sqrt s11 b = 0 := by
  simp [stepCost, eucH, hx, hy, show s11.rootx = Q.ofInt 1 from rfl,
    show s11.rooty = Q.ofInt 1 from rfl, Q.toK, Q.ofInt]

/-- Processing the two start successors of `s11` raises: the first
insertion fills the singleton heap, the second hits the broken
`less_than` call in `FibonacciHeap.insert`. -/
theorem processSuccs_s11_raises :
    processSuccs ℝ Real.sqrt E11 t22 (.mk s11 (getValue ℝ Real.sqrt s11 t22) 0 none) 33
      [a1, a2] ⟨none, fun _ => none⟩ = .error .typeError := by
  have h1 : E11.nodeHash a1 = 33 := by decide
  have h2 : E11.nodeHash a2 = 33 := by decide
  have hs1 : stepCost ℝ Real.sqrt s11 a1 = 0 := stepCost_s11_self a1 rfl rfl
  have hs2 : stepCost ℝ Real.sqrt s11 a2 = 0 := stepCost_s11_self a2 rfl rfl
  have hd1 : (0 : ℝ) ≤ EPS.toK ℝ := by norm_num [EPS, Q.toK]
  have hd2 : -(EPS.toK ℝ) ≤ (0 : ℝ) := by norm_num [EPS, Q.toK]
  unfold processSuccs
  simp only [h1, hs1, SNode.data, SNode.skey, zero_add, add_zero, bind, Except.bind,
    heapInsert]
  unfold processSuccs
  simp [h2, hs2, SNode.data, SNode.skey, SNode.parent, zero_add, add_zero, sub_self,
    hd1, hd2, heapInsert, bind, Except.bind]

/-- C1: on the all-free 3×3 grid with traversable start `(1,1)` and
target `(2,2)`, `search_costonly` does not return normally — the second
successor insertion into the open Fibonacci heap calls the
four-parameter static `FibonacciHeapNode.less_than` with one argument
and a `TypeError` escapes the search. -/
theorem C1_search_insert_raises :
    searchCostonly ℝ Real.sqrt g3free s11 t22 30 10 = .error .typeError := by
  have hval : E11.validateInstance = true := by decide
  have hexp : E11.expand 30 s11 = some [a1, a2] := by decide
  have hcont : intervalContains s11.interval t22.rootx t22.rooty = false := by decide
  have hhash : E11.nodeHash s11 = 33 := by decide
  unfold searchCostonly
  rw [show (⟨g3free, s11, t22, true⟩ : Expander) = E11 from rfl]
  simp only [hval, Bool.not_true, Bool.false_eq_true, if_false]
  rw [show (10 : Nat) = 9 + 1 from rfl]
  unfold searchLoop
  simp only [heapRemoveMin, SNode.data, hexp, hcont, Bool.false_eq_true, if_false, hhash]
  rw [processSuccs_s11_raises]

/-! ## C2 / C3 — the S1 scenario -/

/-- Start node `(0, 0)` of scenario S1. -/
def s00 : ANode := mkPointNode 0 0

/-- The unique successor of the S1 start node: interval `[0,3]` on
row 2, root `(0,0)` (it contains the target, so pruning is bypassed). -/
def b1 : ANode := ⟨⟨⟨0, 1⟩, ⟨3, 1⟩, 2, true, true⟩, ⟨0, 1⟩, ⟨0, 1⟩⟩

/-- The S1 expander instance. -/
def E02 : Expander := ⟨g3free, s00, t22, true⟩

/-- Step cost between the coincident roots `(0,0)` of the S1 start and
its successor is `√0 = 0`. -/
theorem stepCost_s00_b1 : stepCost ℝ Real.sqrt s00 b1 = 0 := by
  simp [stepCost, eucH, show s00.rootx = Q.ofInt 0 from rfl,
    show s00.rooty = Q.ofInt 0 from rfl, show b1.rootx = ⟨0, 1⟩ from rfl,
    show b1.rooty = ⟨0, 1⟩ from rfl, Q.toK, Q.ofInt]

/-- The heuristic value of the S1 goal node: the target lies inside the
projected cone, so the value is the direct distance `√8`. -/
theorem getValue_b1_t22 : getValue ℝ Real.sqrt b1 t22 = Real.sqrt 8 := by
  rw [show getValue ℝ Real.sqrt b1 t22 =
      eucH ℝ Real.sqrt (⟨0, 1⟩ : Q) (⟨0, 1⟩ : Q) (⟨2, 1⟩ : Q) (⟨2, 1⟩ : Q) from rfl]
  simp [eucH, Q.toK]
  norm_num

/-- `√8 = 2√2`. -/
theorem sqrt8_eq : Real.sqrt 8 = 2 * Real.sqrt 2 := by
  rw [show (8 : ℝ) = 4 * 2 by norm_num, Real.sqrt_mul (by norm_num : (0:ℝ) ≤ 4),
    show Real.sqrt 4 = 2 by
      rw [show (4 : ℝ) = 2 ^ 2 by norm_num, Real.sqrt_sq (by norm_num)]]

/-- The full S1 cost-only trace: the search pops the start, inserts its
single successor (the heap is empty at that moment, so no comparison is
attempted), pops it, expands it, finds the target in its interval and
reports cost `2√2` with `path_found = true`. -/
theorem s1_costonly_eq :
    searchCostonly ℝ Real.sqrt g3free s00 t22 30 10 = .ok (2 * Real.sqrt 2, true) := by
  have hval : E02.validateInstance = true := by decide
  have hexp1 : E02.expand 30 s00 = some [b1] := by decide
  have hcont1 : intervalContains s00.interval t22.rootx t22.rooty = false := by decide
  have hhash : E02.nodeHash s00 = 0 := by decide
  have hexp2 : E02.expand 30 b1 = some [] := by decide
  have hcont2 : intervalContains b1.interval t22.rootx t22.rooty = true := by decide
  unfold searchCostonly
  rw [show (⟨g3free, s00, t22, true⟩ : Expander) = E02 from rfl]
  simp only [hval, Bool.not_true, Bool.false_eq_true, if_false]
  rw [show (10 : Nat) = 9 + 1 from rfl]
  unfold searchLoop
  simp only [heapRemoveMin, SNode.data, hexp1, hcont1, Bool.false_eq_true, if_false, hhash]
  unfold processSuccs
  simp only [SNode.data, SNode.skey, heapInsert, bind, Except.bind]
  unfold processSuccs
  rw [show (9 : Nat) = 8 + 1 from rfl]
  unfold searchLoop
  simp only [heapRemoveMin, SNode.data, SNode.key, hexp2, hcont2, if_true]
  simp [stepCost_s00_b1, getValue_b1_t22, sqrt8_eq]

/-- C2: scenario S1 — all-free 3×3 grid, start `(0,0)`, target `(2,2)` —
terminates with `path_found = true` and cost `2√2`, which is within
`1e-6` of `2.8284271`. -/
theorem C2_s1_cost_2sqrt2 :
    searchCostonly ℝ Real.sqrt g3free s00 t22 30 10 = .ok (2 * Real.sqrt 2, true) ∧
    |2 * Real.sqrt 2 - 2.8284271| < 1e-6 := by
  refine ⟨s1_costonly_eq, ?_⟩
  have h0 : (0 : ℝ) ≤ 2 := by norm_num
  have hs := Real.sq_sqrt h0
  have hnn := Real.sqrt_nonneg 2
  have hub : Real.sqrt 2 < 1.41421357 := by nlinarith
  have hlb : (1.41421356 : ℝ) < Real.sqrt 2 := by nlinarith
  rw [abs_lt]
  constructor <;> nlinarith

/-- C3: on S1 the cost is `2√2 ≥ 0`, yet `Search.search` returns the
one-node path `[target]` with cost field `0` — it walks the parent chain
of a freshly generated target wrapper (whose parent is `None`), not the
chain of the final search node, so the path is not linked from start to
target and its summed segment length `0` differs from the reported cost
by far more than `1e-6`. -/
theorem C3_path_is_single_target_node :
    searchPath ℝ Real.sqrt g3free s00 t22 30 10 = .ok (.cons t22 .empty 0) ∧
    pathLen ℝ (.cons t22 .empty 0) = 1 ∧
    pathSegLength ℝ Real.sqrt (.cons t22 .empty 0) = 0 ∧
    1e-6 < 2 * Real.sqrt 2 - pathSegLength ℝ Real.sqrt (.cons t22 .empty 0) := by
  have h0 : (0 : ℝ) ≤ 2 := by norm_num
  have hs := Real.sq_sqrt h0
  have hnn := Real.sqrt_nonneg 2
  have hlb : (1.41421356 : ℝ) < Real.sqrt 2 := by nlinarith
  refine ⟨?_, rfl, rfl, ?_⟩
  · unfold searchPath
    rw [s1_costonly_eq]
    show (if (2 * Real.sqrt 2 : ℝ) = -1 then Except.ok PyPath.empty
        else Except.ok (buildPathFrom ℝ (SNode.mk t22 0 0 none) PyPath.empty)) =
      Except.ok (PyPath.cons t22 PyPath.empty 0)
    rw [if_neg (by nlinarith : ¬(2 * Real.sqrt 2 = -1))]
    rfl
  · simp only [pathSegLength]
    nlinarith

/-! ## Bit-level facts used by the scan proofs (C7, C8) -/

/-- `log2Aux` computes the floor logarithm: sandwich bounds. -/
theorem log2Aux_bounds : ∀ (f v : Nat), 0 < v → v < 2 ^ f →
    2 ^ log2Aux f v ≤ v ∧ v < 2 ^ (log2Aux f v + 1) := by
  intro f
  induction f with
  | zero =>
    intro v h0 hlt
    rw [pow_zero] at hlt
    omega
  | succ f ih =>
    intro v h0 hlt
    unfold log2Aux
    by_cases h1 : v ≤ 1
    · have hv1 : v = 1 := by omega
      subst hv1
      simp
    · simp only [if_neg h1]
      have hv2 : 0 < v / 2 := by omega
      have hv2' : v / 2 < 2 ^ f := by
        rw [Nat.div_lt_iff_lt_mul (by norm_num)]
        rw [pow_succ] at hlt
        omega
      obtain ⟨hA, hB⟩ := ih (v / 2) hv2 hv2'
      constructor
      · rw [pow_succ]
        omega
      · rw [pow_succ]
        omega

/-- The top set bit of a nonzero 32-bit word: `nlog2` names it, every
higher bit is clear, and it is at most 31. -/
theorem nlog2_spec {v : Nat} (h0 : 0 < v) (hlt : v < 2 ^ 32) :
    v.testBit (nlog2 v) = true ∧ nlog2 v ≤ 31 ∧
      ∀ j, nlog2 v < j → v.testBit j = false := by
  have h64 : v < 2 ^ 64 := lt_trans hlt (by norm_num)
  obtain ⟨hA, hB⟩ := log2Aux_bounds 64 v h0 h64
  rw [← show nlog2 v = log2Aux 64 v from rfl] at hA hB
  refine ⟨?_, ?_, ?_⟩
  · rw [Nat.testBit_to_div_mod]
    have hdiv : v / 2 ^ nlog2 v = 1 := by
      have h2 : v < 2 * 2 ^ nlog2 v := by
        rw [pow_succ] at hB
        omega
      have h3 : v / 2 ^ nlog2 v < 2 := by
        rw [Nat.div_lt_iff_lt_mul (Nat.pos_pow_of_pos _ (by norm_num))]
        omega
      have h4 : 1 ≤ v / 2 ^ nlog2 v := by
        rw [Nat.le_div_iff_mul_le (Nat.pos_pow_of_pos _ (by norm_num))]
        omega
      omega
    rw [hdiv]
    decide
  · by_contra hc
    push_neg at hc
    have : (2 : Nat) ^ 32 ≤ 2 ^ nlog2 v := Nat.pow_le_pow_right (by norm_num) (by omega)
    omega
  · intro j hj
    exact Nat.testBit_lt_two_pow
      (lt_of_lt_of_le hB (Nat.pow_le_pow_right (by norm_num) (by omega)))

/-- `ntzAux` finds the lowest set bit. -/
theorem ntzAux_eq : ∀ (f k v : Nat), k < f → v.testBit k = true →
    (∀ j, j < k → v.testBit j = false) → ntzAux f v = k := by
  intro f
  induction f with
  | zero => intro k v hk _ _; omega
  | succ f ih =>
    intro k v hk ht hl
    unfold ntzAux
    cases k with
    | zero =>
      rw [Nat.testBit_zero] at ht
      simp only [decide_eq_true_eq] at ht
      simp [ht]
    | succ k' =>
      have h0 : v % 2 ≠ 1 := by
        have h00 := hl 0 (by omega)
        rw [Nat.testBit_zero] at h00
        simpa using h00
      simp only [if_neg h0]
      have ht' : (v / 2).testBit k' = true := by rw [Nat.testBit_div_two]; exact ht
      have hl' : ∀ j, j < k' → (v / 2).testBit j = false := by
        intro j hj
        rw [Nat.testBit_div_two]
        exact hl (j + 1) (by omega)
      rw [ih k' (v / 2) (by omega) ht' hl']

/-- Bits of the low mask `(1 <<< s) - 1`. -/
theorem testBit_lowmask (s j : Nat) :
    ((1 <<< s : Nat) - 1).testBit j = decide (j < s) := by
  rw [Nat.shiftLeft_eq, one_mul, Nat.testBit_two_pow_sub_one]


/-- `get_number_trailing_zeros` at the lowest set bit. -/
theorem ntz32_eq {v k : Nat} (hk : k < 32) (ht : v.testBit k = true)
    (hl : ∀ j, j < k → v.testBit j = false) : ntz32 v = k := by
  have hv : v ≠ 0 := by
    intro h
    rw [h, Nat.zero_testBit] at ht
    exact absurd ht (by simp)
  unfold ntz32
  rw [if_neg hv]
  exact ntzAux_eq 32 k v hk ht hl

/-- `get_number_leading_zeros` of a nonzero 32-bit word, through
`nlog2`. -/
theorem clz32_eq {v : Nat} (hv : v ≠ 0) : clz32 v = 31 - nlog2 v := by
  unfold clz32
  rw [if_neg hv]

/-- Bits of the 32-bit complement. -/
theorem testBit_compl32 {w j : Nat} (hj : j < 32) :
    (compl32 w).testBit j = !w.testBit j := by
  simp [compl32, Nat.testBit_xor, show Nat.testBit W32M j = true from testBit_allones hj]

/-- Bits of the mask `(1 <<< s) | ((1 <<< s) - 1)` used by
`scan_cells_left`. -/
theorem testBit_leftmask (s j : Nat) :
    (((1 <<< s) ||| ((1 <<< s) - 1) : Nat)).testBit j = decide (j ≤ s) := by
  rw [Nat.testBit_or, testBit_lowmask, Nat.shiftLeft_eq, one_mul, Nat.testBit_two_pow]
  by_cases h1 : j < s
  · have h2 : j ≤ s := by omega
    have h3 : ¬(s = j) := by omega
    simp [h1, h2, h3]
  · by_cases h2 : j = s
    · subst h2
      simp
    · have h3 : ¬(j ≤ s) := by omega
      have h4 : ¬(s = j) := by omega
      simp [h1, h3, h4]

/-- The `scan_cells_left` mask is a 32-bit word for `s < 32`. -/
theorem leftmask_lt {s : Nat} (hs : s < 32) :
    (((1 <<< s) ||| ((1 <<< s) - 1)) : Nat) < 2 ^ 32 := by
  have h1 : (1 <<< s : Nat) = 2 ^ s := by rw [Nat.shiftLeft_eq, one_mul]
  have h2 : (2 : Nat) ^ s < 2 ^ 32 := Nat.pow_lt_pow_right (by norm_num) hs
  rw [h1]
  exact Nat.or_lt_two_pow h2 (by omega)

/-- One step of the `scan_cells_right` loop with a nonzero masked word
stops immediately. -/
theorem scanCellsRightLoop_one (cells : Int → Nat) (t : Int) (obst : Nat) (h : obst ≠ 0) :
    scanCellsRightLoop cells 1 t obst = some (t, ntz32 obst) := by
  rw [show (1 : Nat) = 0 + 1 from rfl]
  unfold scanCellsRightLoop
  rw [if_pos h]

/-- One step of the `scan_cells_left` loop with a nonzero masked word
stops immediately. -/
theorem scanCellsLeftLoop_one (cells : Int → Nat) (t : Int) (obst : Nat) (h : obst ≠ 0) :
    scanCellsLeftLoop cells 1 t obst = some (t, clz32 obst) := by
  rw [show (1 : Nat) = 0 + 1 from rfl]
  unfold scanCellsLeftLoop
  rw [if_pos h]

/-- One step of the `scan_cells_left` loop on a clear masked word runs
out at fuel one. -/
theorem scanCellsLeftLoop_one_none (cells : Int → Nat) (t : Int) :
    scanCellsLeftLoop cells 1 t 0 = none := by
  rw [show (1 : Nat) = 0 + 1 from rfl]
  unfold scanCellsLeftLoop
  simp [scanCellsLeftLoop]

/-- `Option.map` preserves `isSome`. -/
theorem isSome_map {α β : Type} (f : α → β) (o : Option α) :
    (o.map f).isSome = o.isSome := by
  cases o
  · rfl
  · rfl

/-- The `scan_cells_right` loop stops once any word within fuel reach
has a set obstacle bit: fuel induction with the witness distance `k`
(the start word for `k = 0`, the word `k` steps right otherwise). -/
theorem scanCellsRightLoop_term (cells : Int → Nat) :
    ∀ (fuel k : Nat) (t : Int) (obst : Nat), k < fuel →
      (if k = 0 then obst ≠ 0 else compl32 (cells (t + (k : Int))) ≠ 0) →
      (scanCellsRightLoop cells fuel t obst).isSome = true := by
  intro fuel
  induction fuel with
  | zero =>
    intro k t obst hk _
    omega
  | succ f ih =>
    intro k t obst hk hwit
    unfold scanCellsRightLoop
    by_cases h0 : obst ≠ 0
    · rw [if_pos h0]
      rfl
    · rw [if_neg h0]
      cases k with
      | zero =>
        rw [if_pos rfl] at hwit
        exact absurd hwit h0
      | succ k' =>
        rw [if_neg (Nat.succ_ne_zero k')] at hwit
        apply ih k' (t + 1) (compl32 (cells (t + 1))) (by omega)
        by_cases hk0 : k' = 0
        · subst hk0
          rw [if_pos rfl]
          simpa using hwit
        · rw [if_neg hk0]
          have heq : t + 1 + (k' : Int) = t + ((k' + 1 : Nat) : Int) := by
            push_cast
            ring
          rw [heq]
          exact hwit

/-- The `scan_cells_left` loop stops once any word within fuel reach
has a set obstacle bit, mirrored leftwards. -/
theorem scanCellsLeftLoop_term (cells : Int → Nat) :
    ∀ (fuel k : Nat) (t : Int) (obst : Nat), k < fuel →
      (if k = 0 then obst ≠ 0 else compl32 (cells (t - (k : Int))) ≠ 0) →
      (scanCellsLeftLoop cells fuel t obst).isSome = true := by
  intro fuel
  induction fuel with
  | zero =>
    intro k t obst hk _
    omega
  | succ f ih =>
    intro k t obst hk hwit
    unfold scanCellsLeftLoop
    by_cases h0 : obst ≠ 0
    · rw [if_pos h0]
      rfl
    · rw [if_neg h0]
      cases k with
      | zero =>
        rw [if_pos rfl] at hwit
        exact absurd hwit h0
      | succ k' =>
        rw [if_neg (Nat.succ_ne_zero k')] at hwit
        apply ih k' (t - 1) (compl32 (cells (t - 1))) (by omega)
        by_cases hk0 : k' = 0
        · subst hk0
          rw [if_pos rfl]
          simpa using hwit
        · rw [if_neg hk0]
          have heq : t - 1 - (k' : Int) = t - ((k' + 1 : Nat) : Int) := by
            push_cast
            ring
          rw [heq]
          exact hwit

/-- `scan_cells_right` started on a non-traversable cell stops at that
cell: the masked complement word has its start bit set with every
lower masked bit clear, so the trailing-zero count names the start
bit. -/
theorem scanCellsRight_at_blocked (g : Grid) (x y : Int)
    (hb : g.cellTrav x y = false) : g.scanCellsRight 1 x y = some x := by
  have hmod : Int.emod (g.mapId x y) 32 = g.mapId x y % 32 := rfl
  have hsb : (Int.emod (g.mapId x y) 32).toNat < 32 := by
    rw [hmod]
    omega
  have hcell : (g.cells (Int.ediv (g.mapId x y) 32)).testBit
      (Int.emod (g.mapId x y) 32).toNat = false := hb
  have hbit : (compl32 (g.cells (Int.ediv (g.mapId x y) 32)) &&&
      compl32 ((1 <<< (Int.emod (g.mapId x y) 32).toNat) - 1)).testBit
        (Int.emod (g.mapId x y) 32).toNat = true := by
    rw [Nat.testBit_and, testBit_compl32 hsb, testBit_compl32 hsb, hcell, testBit_lowmask]
    simp
  have hlow : ∀ j, j < (Int.emod (g.mapId x y) 32).toNat →
      (compl32 (g.cells (Int.ediv (g.mapId x y) 32)) &&&
        compl32 ((1 <<< (Int.emod (g.mapId x y) 32).toNat) - 1)).testBit j = false := by
    intro j hj
    have hj32 : j < 32 := by omega
    rw [Nat.testBit_and, testBit_compl32 hj32, testBit_compl32 hj32, testBit_lowmask]
    simp [hj]
  have hne : compl32 (g.cells (Int.ediv (g.mapId x y) 32)) &&&
      compl32 ((1 <<< (Int.emod (g.mapId x y) 32).toNat) - 1) ≠ 0 := by
    intro h
    rw [h, Nat.zero_testBit] at hbit
    exact absurd hbit (by simp)
  have hntz := ntz32_eq hsb hbit hlow
  simp only [Grid.scanCellsRight]
  rw [scanCellsRightLoop_one _ _ _ hne, hntz]
  simp only [Option.map_some', Option.some.injEq]
  ring

/-- When `scan_cells_left` is started on a traversable cell and stops
within the starting word (fuel 1 forces this), it returns the position
of a non-traversable cell strictly left of the start. -/
theorem scanCellsLeft_first_word (g : Grid) (x y L : Int)
    (htrav : g.cellTrav x y = true)
    (hscan : g.scanCellsLeft 1 x y = some L) :
    g.cellTrav L y = false ∧ L < x := by
  have hmod : Int.emod (g.mapId x y) 32 = g.mapId x y % 32 := rfl
  have hdiv : Int.ediv (g.mapId x y) 32 = g.mapId x y / 32 := rfl
  have hsb : (Int.emod (g.mapId x y) 32).toNat < 32 := by
    rw [hmod]
    omega
  have hidrec : Int.ediv (g.mapId x y) 32 * 32 +
      ((Int.emod (g.mapId x y) 32).toNat : Int) = g.mapId x y := by
    rw [hmod, hdiv]
    omega
  have htravbit : (g.cells (Int.ediv (g.mapId x y) 32)).testBit
      (Int.emod (g.mapId x y) 32).toNat = true := htrav
  simp only [Grid.scanCellsLeft] at hscan
  by_cases hw : compl32 (g.cells (Int.ediv (g.mapId x y) 32)) &&&
      ((1 <<< (Int.emod (g.mapId x y) 32).toNat) |||
       ((1 <<< (Int.emod (g.mapId x y) 32).toNat) - 1)) = 0
  · rw [hw, scanCellsLeftLoop_one_none] at hscan
    exact absurd hscan (by simp)
  · have hwpos : 0 < compl32 (g.cells (Int.ediv (g.mapId x y) 32)) &&&
        ((1 <<< (Int.emod (g.mapId x y) 32).toNat) |||
         ((1 <<< (Int.emod (g.mapId x y) 32).toNat) - 1)) := Nat.pos_of_ne_zero hw
    have hwlt : compl32 (g.cells (Int.ediv (g.mapId x y) 32)) &&&
        ((1 <<< (Int.emod (g.mapId x y) 32).toNat) |||
         ((1 <<< (Int.emod (g.mapId x y) 32).toNat) - 1)) < 2 ^ 32 :=
      lt_of_le_of_lt Nat.and_le_right (leftmask_lt hsb)
    rw [scanCellsLeftLoop_one _ _ _ hw, clz32_eq hw] at hscan
    simp only [Option.map_some', Option.some.injEq] at hscan
    obtain ⟨hbit, hle31, _⟩ := nlog2_spec hwpos hwlt
    rw [Nat.testBit_and] at hbit
    have hMl := ((Bool.and_eq_true _ _).mp hbit).2
    have hCl'' := ((Bool.and_eq_true _ _).mp hbit).1
    have hlle : nlog2 (compl32 (g.cells (Int.ediv (g.mapId x y) 32)) &&&
        ((1 <<< (Int.emod (g.mapId x y) 32).toNat) |||
         ((1 <<< (Int.emod (g.mapId x y) 32).toNat) - 1))) ≤
          (Int.emod (g.mapId x y) 32).toNat := by
      rw [testBit_leftmask] at hMl
      exact of_decide_eq_true hMl
    have hCl' : (g.cells (Int.ediv (g.mapId x y) 32)).testBit
        (nlog2 (compl32 (g.cells (Int.ediv (g.mapId x y) 32)) &&&
          ((1 <<< (Int.emod (g.mapId x y) 32).toNat) |||
           ((1 <<< (Int.emod (g.mapId x y) 32).toNat) - 1)))) = false := by
      rw [testBit_compl32 (by omega)] at hCl''
      simpa using hCl''
    have hlne : nlog2 (compl32 (g.cells (Int.ediv (g.mapId x y) 32)) &&&
        ((1 <<< (Int.emod (g.mapId x y) 32).toNat) |||
         ((1 <<< (Int.emod (g.mapId x y) 32).toNat) - 1))) ≠
          (Int.emod (g.mapId x y) 32).toNat := by
      intro hcon
      rw [hcon, htravbit] at hCl'
      exact absurd hCl' (by simp)
    have hmapL : g.mapId L y = Int.ediv (g.mapId x y) 32 * 32 +
        (nlog2 (compl32 (g.cells (Int.ediv (g.mapId x y) 32)) &&&
          ((1 <<< (Int.emod (g.mapId x y) 32).toNat) |||
           ((1 <<< (Int.emod (g.mapId x y) 32).toNat) - 1))) : Int) := by
      have hexpand : g.mapId L y = g.mapId x y - (x - L) := by
        simp only [Grid.mapId]
        ring
      generalize nlog2 (compl32 (g.cells (Int.ediv (g.mapId x y) 32)) &&&
        ((1 <<< (Int.emod (g.mapId x y) 32).toNat) |||
         ((1 <<< (Int.emod (g.mapId x y) 32).toNat) - 1))) = l at hscan hle31 ⊢
      generalize (Int.emod (g.mapId x y) 32).toNat = S at hidrec hscan hsb hle31
      generalize Int.ediv (g.mapId x y) 32 = T at hidrec hscan ⊢
      omega
    constructor
    · show getBitArr g.cells (g.mapId L y) = false
      unfold getBitArr
      have e1 : Int.ediv (g.mapId L y) 32 = g.mapId L y / 32 := rfl
      have e2 : Int.emod (g.mapId L y) 32 = g.mapId L y % 32 := rfl
      have hdiveq : Int.ediv (g.mapId L y) 32 = Int.ediv (g.mapId x y) 32 := by
        rw [e1]
        generalize nlog2 (compl32 (g.cells (Int.ediv (g.mapId x y) 32)) &&&
          ((1 <<< (Int.emod (g.mapId x y) 32).toNat) |||
           ((1 <<< (Int.emod (g.mapId x y) 32).toNat) - 1))) = l at hmapL hle31
        generalize Int.ediv (g.mapId x y) 32 = T at hmapL ⊢
        omega
      have hmodeq : (Int.emod (g.mapId L y) 32).toNat =
          nlog2 (compl32 (g.cells (Int.ediv (g.mapId x y) 32)) &&&
            ((1 <<< (Int.emod (g.mapId x y) 32).toNat) |||
             ((1 <<< (Int.emod (g.mapId x y) 32).toNat) - 1))) := by
        rw [e2]
        generalize nlog2 (compl32 (g.cells (Int.ediv (g.mapId x y) 32)) &&&
          ((1 <<< (Int.emod (g.mapId x y) 32).toNat) |||
           ((1 <<< (Int.emod (g.mapId x y) 32).toNat) - 1))) = l at hmapL hle31 ⊢
        generalize Int.ediv (g.mapId x y) 32 = T at hmapL
        omega
      rw [hdiveq, hmodeq]
      exact hCl'
    · have hlt : nlog2 (compl32 (g.cells (Int.ediv (g.mapId x y) 32)) &&&
          ((1 <<< (Int.emod (g.mapId x y) 32).toNat) |||
           ((1 <<< (Int.emod (g.mapId x y) 32).toNat) - 1))) <
            (Int.emod (g.mapId x y) 32).toNat := by omega
      generalize nlog2 (compl32 (g.cells (Int.ediv (g.mapId x y) 32)) &&&
        ((1 <<< (Int.emod (g.mapId x y) 32).toNat) |||
         ((1 <<< (Int.emod (g.mapId x y) 32).toNat) - 1))) = l at hscan hle31 hlt
      generalize (Int.emod (g.mapId x y) 32).toNat = S at hscan hsb hlt
      generalize Int.ediv (g.mapId x y) 32 = T at hscan
      omega

/-- C7: the specified round-trip identity fails. For a traversable
start `x` whose leftward scan stops inside the starting word (fuel 1
forces the stop there), `scan_cells_left` returns the position `L` of a
non-traversable cell strictly left of `x`; restarting
`scan_cells_right` at `L` returns `L` itself, because the right scan
includes its own starting cell. Hence
`scan_cells_right(scan_cells_left(x,y),y) = scan_cells_left(x,y) < x`,
and `scan_cells_right(scan_cells_left(x,y),y) - 1 = L - 1 ≠ x`. -/
theorem C7_scan_round_trip (g : Grid) (x y L : Int)
    (htrav : g.cellTrav x y = true)
    (hscan : g.scanCellsLeft 1 x y = some L) :
    g.scanCellsRight 1 L y = some L ∧ g.cellTrav L y = false ∧ L < x ∧ L - 1 ≠ x := by
  obtain ⟨hb, hlt⟩ := scanCellsLeft_first_word g x y L htrav hscan
  exact ⟨scanCellsRight_at_blocked g L y hb, hb, hlt, by omega⟩

/-- Witness for `C7_scan_round_trip` on the all-free 3x3 grid at
`(x, y) = (1, 1)`, where the left scan returns the padding obstacle at
`-1`. -/
theorem C7_scan_round_trip_witness :
    g3free.scanCellsRight 1 (-1) 1 = some (-1) ∧ g3free.cellTrav (-1) 1 = false ∧
      (-1 : Int) < 1 ∧ (-1 : Int) - 1 ≠ 1 :=
  C7_scan_round_trip g3free 1 1 (-1) (by decide) (by decide)

/-- C7: concrete counterexample to the claimed identity
`scan_cells_right(scan_cells_left(x,y),y) - 1 = x` on the all-free 3x3
grid: `x = 1` lies strictly inside the open run `0..2` of traversable
cells of row 1 (bounded by blocked cells at `-1` and `3`),
`scan_cells_left(1,1) = -1`, and the round trip returns `-1` again, so
subtracting one gives `-2`, not `1`. -/
theorem C7_round_trip_counterexample :
    g3free.cellTrav 0 1 = true ∧ g3free.cellTrav 1 1 = true ∧
    g3free.cellTrav 2 1 = true ∧ g3free.cellTrav (-1) 1 = false ∧
    g3free.cellTrav 3 1 = false ∧
    g3free.scanCellsLeft 1 1 1 = some (-1) ∧
    g3free.scanCellsRight 1 (-1) 1 = some (-1) ∧
    ((-1 : Int) - 1 ≠ (1 : Int)) := by
  refine ⟨?_, ?_, ?_, ?_, ?_, ?_, ?_, ?_⟩ <;> decide

/-- `set_cell_is_traversable` leaves the width unchanged. -/
theorem setCell_width (g : Grid) (cx cy : Int) (v : Bool) :
    (g.setCell cx cy v).width = g.width := rfl

/-- `set_cell_is_traversable` leaves the height unchanged. -/
theorem setCell_height (g : Grid) (cx cy : Int) (v : Bool) :
    (g.setCell cx cy v).height = g.height := rfl

/-- `set_cell_is_traversable` writes the cell bitmap only through
`set_bit_value` at the cell's map id; the four point updates touch the
other three bitmaps. -/
theorem setCell_cells (g : Grid) (cx cy : Int) (v : Bool) :
    (g.setCell cx cy v).cells = setBitArr g.cells (g.mapId cx cy) v := rfl

/-- The word index written by an in-bounds cell update lies in the band
`[2W, (height + 2) W]`, where `W = width / 32 + 1` is the number of
words per padded row. -/
theorem mapId_word_range (g : Grid) (cx cy : Int) (hx : 0 ≤ cx) (hx2 : cx < g.width)
    (hy : 0 ≤ cy) (hy2 : cy < g.height) :
    2 * (Int.ediv g.width 32 + 1) ≤ Int.ediv (g.mapId cx cy) 32 ∧
      Int.ediv (g.mapId cx cy) 32 ≤ (g.height + 2) * (Int.ediv g.width 32 + 1) := by
  have hWb : Int.ediv g.width 32 = g.width / 32 := rfl
  have hsplit : g.mapId cx cy = (cx + 2) + ((cy + 2) * (Int.ediv g.width 32 + 1)) * 32 := by
    unfold Grid.mapId Grid.mapWidth Grid.mapWidthInWords PAD
    ring
  have hdiv : Int.ediv (g.mapId cx cy) 32 =
      Int.ediv (cx + 2) 32 + (cy + 2) * (Int.ediv g.width 32 + 1) := by
    rw [hsplit]
    exact Int.add_mul_ediv_right _ _ (by norm_num)
  have h0W : (0 : Int) ≤ Int.ediv g.width 32 + 1 := by
    rw [hWb]
    omega
  have hcx32 : 0 ≤ Int.ediv (cx + 2) 32 := Int.ediv_nonneg (by omega) (by norm_num)
  have hcxW : Int.ediv (cx + 2) 32 ≤ Int.ediv g.width 32 + 1 := by
    have h1 : cx + 2 ≤ 32 * (Int.ediv g.width 32 + 1) := by
      rw [hWb]
      omega
    have h2 : Int.ediv (cx + 2) 32 ≤ Int.ediv (32 * (Int.ediv g.width 32 + 1)) 32 :=
      Int.ediv_le_ediv (by norm_num) h1
    have h3 : Int.ediv (32 * (Int.ediv g.width 32 + 1)) 32 = Int.ediv g.width 32 + 1 := by
      rw [show Int.ediv (32 * (Int.ediv g.width 32 + 1)) 32 =
        32 * (Int.ediv g.width 32 + 1) / 32 from rfl]
      exact Int.mul_ediv_cancel_left _ (by norm_num)
    rw [h3] at h2
    exact h2
  constructor
  · rw [hdiv]
    have hmul : 2 * (Int.ediv g.width 32 + 1) ≤ (cy + 2) * (Int.ediv g.width 32 + 1) :=
      mul_le_mul_of_nonneg_right (by omega) h0W
    generalize hA : (cy + 2) * (Int.ediv g.width 32 + 1) = A at hmul ⊢
    generalize hB : Int.ediv (cx + 2) 32 = B at hcx32 ⊢
    generalize hC : Int.ediv g.width 32 = C at hmul ⊢
    omega
  · rw [hdiv]
    have hmul : (cy + 3) * (Int.ediv g.width 32 + 1) ≤
        (g.height + 2) * (Int.ediv g.width 32 + 1) :=
      mul_le_mul_of_nonneg_right (by omega) h0W
    have hsum : (cy + 3) * (Int.ediv g.width 32 + 1) =
        (cy + 2) * (Int.ediv g.width 32 + 1) + (Int.ediv g.width 32 + 1) := by
      ring
    generalize hA : (cy + 2) * (Int.ediv g.width 32 + 1) = A at hsum ⊢
    generalize hD : (cy + 3) * (Int.ediv g.width 32 + 1) = D at hmul hsum
    generalize hE : (g.height + 2) * (Int.ediv g.width 32 + 1) = E at hmul ⊢
    generalize hB : Int.ediv (cx + 2) 32 = B at hcxW ⊢
    generalize hC : Int.ediv g.width 32 = C at hsum hcxW
    omega

/-- In-bounds cell updates never touch a word with index below `2W` or
above `(height + 2) W`, so every word of the blocked band around the
written map - the padding ring and everything beyond it - keeps its
all-zero (fully blocked) initial value. -/
theorem setCells_cells_outside :
    ∀ (us : List (Int × Int × Bool)) (g : Grid),
      (∀ u ∈ us, 0 ≤ u.1 ∧ u.1 < g.width ∧ 0 ≤ u.2.1 ∧ u.2.1 < g.height) →
      ∀ w : Int,
        (w < 2 * (Int.ediv g.width 32 + 1) ∨
          (g.height + 2) * (Int.ediv g.width 32 + 1) < w) →
        g.cells w = 0 → (setCells g us).cells w = 0 := by
  intro us
  induction us with
  | nil =>
    intro g _ w _ h0
    exact h0
  | cons u us ih =>
    intro g hb w hw h0
    show (setCells (g.setCell u.1 u.2.1 u.2.2) us).cells w = 0
    have hbu := hb u (List.mem_cons_self u us)
    obtain ⟨hr1, hr2⟩ := mapId_word_range g u.1 u.2.1 hbu.1 hbu.2.1 hbu.2.2.1 hbu.2.2.2
    have hne : w ≠ Int.ediv (g.mapId u.1 u.2.1) 32 := by
      intro hcon
      subst hcon
      generalize hE : (g.height + 2) * (Int.ediv g.width 32 + 1) = E at hr2 hw
      generalize hT : Int.ediv (g.mapId u.1 u.2.1) 32 = T at hr1 hr2 hw
      generalize hX : Int.ediv g.width 32 = X at hr1 hw
      omega
    have hb' : ∀ v ∈ us, 0 ≤ v.1 ∧ v.1 < (g.setCell u.1 u.2.1 u.2.2).width ∧
        0 ≤ v.2.1 ∧ v.2.1 < (g.setCell u.1 u.2.1 u.2.2).height := by
      intro v hv
      rw [setCell_width, setCell_height]
      exact hb v (List.mem_cons_of_mem u hv)
    have hw' : w < 2 * (Int.ediv (g.setCell u.1 u.2.1 u.2.2).width 32 + 1) ∨
        ((g.setCell u.1 u.2.1 u.2.2).height + 2) *
          (Int.ediv (g.setCell u.1 u.2.1 u.2.2).width 32 + 1) < w := by
      rw [setCell_width, setCell_height]
      exact hw
    have h0' : (g.setCell u.1 u.2.1 u.2.2).cells w = 0 := by
      rw [setCell_cells]
      simp only [setBitArr]
      rw [if_neg hne]
      exact h0
    exact ih (g.setCell u.1 u.2.1 u.2.2) hb' w hw' h0'

/-- C8: on every grid reachable by in-bounds `set_cell_is_traversable`
updates and for every starting cell, the word loops of both cell scans
terminate: every word outside the written band - the blocked padding
ring and the all-blocked region beyond it - is all-zero, its 32-bit
complement is all ones, and each scan reaches such a word after
finitely many word steps, so an obstacle bit is always found. The
sufficient fuel is exhibited as the distance to that blocked word. -/
theorem C8_scan_termination (width height : Int) (us : List (Int × Int × Bool))
    (hreach : reachableGrid width height us) (x y : Int) :
    (∃ fuel, ((setCells (initGrid width height) us).scanCellsRight fuel x y).isSome = true) ∧
    (∃ fuel, ((setCells (initGrid width height) us).scanCellsLeft fuel x y).isSome = true) := by
  have hzero : ∀ w : Int,
      (w < 2 * (Int.ediv width 32 + 1) ∨ (height + 2) * (Int.ediv width 32 + 1) < w) →
      (setCells (initGrid width height) us).cells w = 0 := fun w hw =>
    setCells_cells_outside us (initGrid width height) hreach w hw rfl
  constructor
  · refine ⟨((height + 2) * (Int.ediv width 32 + 1) + 1 -
      Int.ediv ((setCells (initGrid width height) us).mapId x y) 32).toNat + 1 + 1, ?_⟩
    simp only [Grid.scanCellsRight]
    rw [isSome_map]
    refine scanCellsRightLoop_term _ _
      (((height + 2) * (Int.ediv width 32 + 1) + 1 -
        Int.ediv ((setCells (initGrid width height) us).mapId x y) 32).toNat + 1) _ _
      (Nat.lt_succ_self _) ?_
    rw [if_neg (Nat.succ_ne_zero _)]
    have hBlt : (height + 2) * (Int.ediv width 32 + 1) <
        Int.ediv ((setCells (initGrid width height) us).mapId x y) 32 +
          ((((height + 2) * (Int.ediv width 32 + 1) + 1 -
            Int.ediv ((setCells (initGrid width height) us).mapId x y) 32).toNat + 1 :
              Nat) : Int) := by
      generalize (height + 2) * (Int.ediv width 32 + 1) = B
      generalize Int.ediv ((setCells (initGrid width height) us).mapId x y) 32 = T
      omega
    have hc0 := hzero _ (Or.inr hBlt)
    rw [hc0]
    decide
  · refine ⟨(Int.ediv ((setCells (initGrid width height) us).mapId x y) 32 -
      (2 * (Int.ediv width 32 + 1) - 1)).toNat + 1 + 1, ?_⟩
    simp only [Grid.scanCellsLeft]
    rw [isSome_map]
    refine scanCellsLeftLoop_term _ _
      ((Int.ediv ((setCells (initGrid width height) us).mapId x y) 32 -
        (2 * (Int.ediv width 32 + 1) - 1)).toNat + 1) _ _
      (Nat.lt_succ_self _) ?_
    rw [if_neg (Nat.succ_ne_zero _)]
    have hBlt : Int.ediv ((setCells (initGrid width height) us).mapId x y) 32 -
        (((Int.ediv ((setCells (initGrid width height) us).mapId x y) 32 -
          (2 * (Int.ediv width 32 + 1) - 1)).toNat + 1 : Nat) : Int) <
        2 * (Int.ediv width 32 + 1) := by
      generalize 2 * (Int.ediv width 32 + 1) = B
      generalize Int.ediv ((setCells (initGrid width height) us).mapId x y) 32 = T
      omega
    have hc0 := hzero _ (Or.inl hBlt)
    rw [hc0]
    decide

/-- Witness for `C8_scan_termination`: the all-free 3x3 grid (whose
update list is in bounds) with start `(1, 1)`. -/
theorem C8_scan_termination_witness :
    (∃ fuel, ((setCells (initGrid 3 3) ((List.range 3).flatMap fun y =>
        (List.range 3).map fun x => ((x : Int), (y : Int), true))).scanCellsRight
          fuel 1 1).isSome = true) ∧
    (∃ fuel, ((setCells (initGrid 3 3) ((List.range 3).flatMap fun y =>
        (List.range 3).map fun x => ((x : Int), (y : Int), true))).scanCellsLeft
          fuel 1 1).isSome = true) :=
  C8_scan_termination 3 3
    ((List.range 3).flatMap fun y => (List.range 3).map fun x => ((x : Int), (y : Int), true))
    (by unfold reachableGrid; decide) 1 1

end Anya2d
